import Mathlib

/-!
Verification development for the deepcrawl links pipeline.

The definitions below are a shallow embedding of the links processor
(`links.processor.ts`) and of the collaborators it consumes.  Functions whose
source is in the repository snapshot are translated line by line; helpers whose
source is not in the snapshot (the `LinkService`, the tree-assembly helpers,
cache-key utilities and configuration constants) are modelled from the
specification and carry a doc comment starting with `Modelled from the spec:`.

Strings are processed through character-list helpers so that every definition
is executable by kernel reduction.  The event-loop interleaving of the
parallel sub-tasks of the tree pipeline is modelled by running them in their
dispatch order; all properties proved below are insensitive to that order.
-/

namespace Deepcrawl

/-! ## Character-list string helpers -/

/-- Split a character list on a separator character. -/
def chSplit (sep : Char) : List Char → List (List Char)
  | [] => [[]]
  | c :: cs =>
    if c = sep then [] :: chSplit sep cs
    else match chSplit sep cs with
      | [] => [[c]]
      | g :: gs => (c :: g) :: gs

/-- Split a string on a separator character. -/
def strSplit (sep : Char) (s : String) : List String :=
  (chSplit sep s.data).map (fun l => String.mk l)

/-- Lower-case an ASCII character. -/
def charLower (c : Char) : Char :=
  if 'A' ≤ c ∧ c ≤ 'Z' then Char.ofNat (c.toNat + 32) else c

/-- Lower-case a string (ASCII). -/
def strLower (s : String) : String := String.mk (s.data.map charLower)

/-- Character-list prefix test. -/
def chIsPre : List Char → List Char → Bool
  | [], _ => true
  | _ :: _, [] => false
  | a :: as, b :: bs => a = b && chIsPre as bs

/-- String prefix test. -/
def strIsPre (s t : String) : Bool := chIsPre s.data t.data

/-- Lexicographic comparison of character lists. -/
def chLE : List Char → List Char → Bool
  | [], _ => true
  | _ :: _, [] => false
  | a :: as, b :: bs => if a = b then chLE as bs else decide (a < b)

/-- Locate the `://` separator: returns the scheme characters and the rest. -/
def chDropScheme (acc : List Char) : List Char → Option (List Char × List Char)
  | ':' :: '/' :: '/' :: rest => some (acc.reverse, rest)
  | c :: rest => chDropScheme (c :: acc) rest
  | [] => none

/-- Truthiness of an optional string, mirroring JavaScript: `undefined` and the
empty string are falsy. -/
def strTruthy : Option String → Bool
  | some s => decide (s ≠ "")
  | none => false

/-! ## Association-list maps (JavaScript objects / `Map`s) -/

/-- Overwriting insert into an association list, mirroring `map.set(k, v)` /
`obj[k] = v`. -/
def amSet (k : String) (v : β) : List (String × β) → List (String × β)
  | [] => [(k, v)]
  | (k', v') :: rest => if k' = k then (k, v) :: rest else (k', v') :: amSet k v rest

/-- Lookup in an association list, mirroring `map.get(k)` / `obj[k]`. -/
def amGet (m : List (String × β)) (k : String) : Option β :=
  match m with
  | [] => none
  | (k', v) :: rest => if k' = k then some v else amGet rest k

/-- Insert a string into a list with set semantics (`Set.add`). -/
def setInsert (x : String) (l : List String) : List String :=
  if l.contains x then l else l ++ [x]

/-- Add all elements of a list into a set-list. -/
def setAddAll (l : List String) (xs : List String) : List String :=
  xs.foldl (fun acc x => setInsert x acc) l

/-- Insertion into a list sorted by `le`. -/
def insSorted (le : α → α → Bool) (a : α) : List α → List α
  | [] => [a]
  | b :: bs => if le a b then a :: b :: bs else b :: insSorted le a bs

/-- Insertion sort by `le`. -/
def insSort (le : α → α → Bool) : List α → List α
  | [] => []
  | a :: as => insSorted le a (insSort le as)

/-! ## URL helpers

The URL accessors mirror what the processor reads off the WHATWG `URL`
object (`origin`, `protocol`, `hostname`). -/

/-- The characters after `scheme://`, or the whole input when no scheme
separator is present. -/
def afterSchemeChars (url : String) : List Char :=
  match chDropScheme [] url.data with
  | some p => p.2
  | none => url.data

/-- The scheme of a URL (`https` for `https://h/p`). -/
def schemeOf (url : String) : String :=
  match chDropScheme [] url.data with
  | some p => String.mk p.1
  | none => ""

/-- The `host[:port]` component of a URL. -/
def hostPortOf (url : String) : String :=
  String.mk ((afterSchemeChars url).takeWhile (fun c => c ≠ '/'))

/-- The hostname (host without port) of a URL, as `URL.hostname`. -/
def hostnameOf (url : String) : String :=
  String.mk (((afterSchemeChars url).takeWhile (fun c => c ≠ '/')).takeWhile (fun c => c ≠ ':'))

/-- The origin of a URL (`scheme://host[:port]`), as `URL.origin`. -/
def urlOrigin (url : String) : String :=
  schemeOf url ++ "://" ++ hostPortOf url

/-- The path characters of a URL (starting with `/`, empty for a bare origin). -/
def pathCharsOf (url : String) : List Char :=
  (afterSchemeChars url).dropWhile (fun c => c ≠ '/')

/-- The non-empty path segments of a URL. -/
def pathSegmentsOf (url : String) : List String :=
  ((chSplit '/' (pathCharsOf url)).filter (fun l => l ≠ [])).map (fun l => String.mk l)

/-- Modelled from the spec: `targetUrlHelper` / `NormalizeURL` (the URL
normalization utility is not part of the snapshot).  Lower-cases scheme and
host, strips the fragment and default ports, collapses duplicate slashes and
drops the trailing slash of a non-root path. -/
def targetUrlHelper (raw : String) : String :=
  let noFrag : List Char := raw.data.takeWhile (fun c => c ≠ '#')
  match chDropScheme [] noFrag with
  | none => String.mk noFrag
  | some p =>
    let scheme := strLower (String.mk p.1)
    let hostport := strLower (String.mk (p.2.takeWhile (fun c => c ≠ '/')))
    let hp :=
      match strSplit ':' hostport with
      | [h, pt] =>
        if (scheme == "https" && pt == "443") || (scheme == "http" && pt == "80") then h
        else hostport
      | _ => hostport
    let segs := ((chSplit '/' (p.2.dropWhile (fun c => c ≠ '/'))).filter
      (fun l => l ≠ [])).map (fun l => String.mk l)
    scheme ++ "://" ++ hp ++ segs.foldl (fun acc s2 => acc ++ "/" ++ s2) ""

/-- Modelled from the spec: the registrable-suffix list used by the
best-effort base-domain computation; the concrete set is configuration, not
part of the design contract. -/
def knownSuffixes : List String := ["com", "org", "net", "io", "dev", "ai", "app", "edu"]

/-- Modelled from the spec: `LinkService.getRootUrl` (not in the snapshot).
Base-domain form `scheme://eTLD+1`: strip leftmost host labels until one label
remains before the registered suffix; fall back to the origin when the suffix
is unknown. -/
def getRootUrl (targetUrl : String) : String :=
  let scheme := schemeOf targetUrl
  let host := hostnameOf targetUrl
  match (strSplit '.' host).reverse with
  | suffix :: base :: _ =>
    if knownSuffixes.contains suffix then scheme ++ "://" ++ base ++ "." ++ suffix
    else urlOrigin targetUrl
  | _ => urlOrigin targetUrl

/-- Modelled from the spec: `LinkService.getAncestorPaths` (not in the
snapshot).  For `https://h/a/b/c` it returns `[https://h/, https://h/a/,
https://h/a/b/]` in shallow-to-deep order; a bare origin yields `[]`. -/
def getAncestorPaths (targetUrl : String) : List String :=
  let origin := urlOrigin targetUrl
  let segs := pathSegmentsOf targetUrl
  (List.range segs.length).map (fun i =>
    origin ++ "/" ++ (segs.take i).foldl (fun acc s => acc ++ s ++ "/") "")

/-- A URL whose path is a strict proper extension of the target's path on the
same host. -/
def isProperPathExtension (targetUrl u : String) : Bool :=
  hostnameOf u == hostnameOf targetUrl &&
  (pathSegmentsOf targetUrl).isPrefixOf (pathSegmentsOf u) &&
  decide ((pathSegmentsOf targetUrl).length < (pathSegmentsOf u).length)

/-- Ordering for descendant paths: by path depth ascending, then
lexicographically. -/
def descLE (a b : String) : Bool :=
  let da := (pathSegmentsOf a).length
  let db := (pathSegmentsOf b).length
  if da = db then chLE a.data b.data else decide (da < db)

/-- Modelled from the spec: `LinkService.getDescendantPaths` (not in the
snapshot).  Every candidate whose path strictly extends the target's path on
the same host, ordered by depth then lexicographically. -/
def getDescendantPaths (targetUrl : String) (candidates : List String) : List String :=
  insSort descLE (candidates.filter (isProperPathExtension targetUrl))

/-! ## Data model

Types follow the Zod schemas of `@deepcrawl/types` (those present in the
snapshot) and the data model of the spec for the rest. -/

/-- Page metadata; the claims only depend on its presence, so only the two
documented leading fields are carried. -/
structure PageMetadata where
  title : Option String := none
  description : Option String := none
  deriving Repr, DecidableEq

/-- Media link buckets of `ExtractedLinks`. -/
structure MediaLinks where
  images : List String := []
  videos : List String := []
  documents : List String := []
  deriving Repr, DecidableEq

/-- Extracted links of one page: internal plus optional external and media
buckets. -/
structure ExtractedLinks where
  internal : List String := []
  external : Option (List String) := none
  media : Option MediaLinks := none
  deriving Repr, DecidableEq

/-- Meta files captured for the root URL. -/
structure MetaFiles where
  robots : Option String := none
  sitemapXML : Option String := none
  deriving Repr, DecidableEq

/-- `ScrapedData` of the scrape service schema: `rawHtml` is required (and
falsy when empty), everything else optional. -/
structure ScrapedData where
  title : Option String := none
  description : Option String := none
  rawHtml : String
  metadata : Option PageMetadata := none
  cleanedHtml : Option String := none
  metaFiles : Option MetaFiles := none
  deriving Repr, DecidableEq

/-- A visited URL with its last-visited timestamp. -/
structure VisitedUrl where
  url : String
  lastVisited : String
  deriving Repr, DecidableEq

/-- A skipped URL with the reason it was not processed. -/
structure SkippedUrl where
  url : String
  reason : String
  deriving Repr, DecidableEq

/-- Categorized skipped URLs, mirroring the `ExtractedLinks` buckets. -/
structure SkippedLinks where
  internal : List SkippedUrl := []
  external : List SkippedUrl := []
  deriving Repr, DecidableEq

/-- Timing metrics attached when `metricsOptions.enable` is set. -/
structure Metrics where
  readableDuration : String := ""
  durationMs : Nat := 0
  startTimeMs : Nat := 0
  endTimeMs : Nat := 0
  deriving Repr, DecidableEq

/-- Sibling ordering for the tree. -/
inductive LinksOrder where
  | page
  | alphabetical
  deriving Repr, DecidableEq

/-- `cacheOptions` of `LinksOptions`. -/
structure CacheOptions where
  enabled : Option Bool := none
  expirationTtl : Option Nat := none
  deriving Repr, DecidableEq

/-- `linkExtractionOptions` of `LinksOptions`. -/
structure LinkExtractionOptions where
  includeExternal : Option Bool := none
  includeMedia : Option Bool := none
  deriving Repr, DecidableEq

/-- `metricsOptions` of `LinksOptions`. -/
structure MetricsOptions where
  enable : Option Bool := none
  deriving Repr, DecidableEq

/-- The recognized `LinksOptions` input; absent keys are `none`. -/
structure LinksOptions where
  url : String
  tree : Option Bool := none
  extractedLinks : Option Bool := none
  metadata : Option Bool := none
  cleanedHtml : Option Bool := none
  robots : Option Bool := none
  sitemapXML : Option Bool := none
  subdomainAsRootUrl : Option Bool := none
  isPlatformUrl : Option Bool := none
  folderFirst : Option Bool := none
  linksOrder : Option LinksOrder := none
  cacheOptions : Option CacheOptions := none
  linkExtractionOptions : Option LinkExtractionOptions := none
  metricsOptions : Option MetricsOptions := none
  deriving Repr, DecidableEq

/-- The data carried by one tree node apart from its URL and children. -/
structure NodeInfo where
  name : Option String := none
  rootUrl : Option String := none
  totalUrls : Option Nat := none
  lastUpdated : String := ""
  lastVisited : Option String := none
  metadata : Option PageMetadata := none
  cleanedHtml : Option String := none
  extractedLinks : Option ExtractedLinks := none
  error : Option String := none
  skippedUrls : Option SkippedLinks := none
  deriving Repr, DecidableEq

/-- A node of the links tree (`LinksTree`): a URL, its node data and its
child pages. -/
inductive LinksTree where
  | mk (url : String) (info : NodeInfo) (children : List LinksTree)
  deriving Repr

/-- The URL of a tree node. -/
def LinksTree.url : LinksTree → String
  | .mk u _ _ => u

/-- The node data of a tree node. -/
def LinksTree.info : LinksTree → NodeInfo
  | .mk _ i _ => i

/-- The children of a tree node. -/
def LinksTree.children : LinksTree → List LinksTree
  | .mk _ _ cs => cs

mutual

/-- Does `p` hold of every node of the tree? -/
def treeAll (p : String → NodeInfo → Bool) : LinksTree → Bool
  | .mk u i cs => p u i && forestAll p cs

/-- Does `p` hold of every node of every tree of the forest? -/
def forestAll (p : String → NodeInfo → Bool) : List LinksTree → Bool
  | [] => true
  | c :: cs => treeAll p c && forestAll p cs

end

mutual

/-- Apply `f` to the node data of every node. -/
def treeMap (f : String → NodeInfo → NodeInfo) : LinksTree → LinksTree
  | .mk u i cs => .mk u (f u i) (forestMap f cs)

/-- Apply `f` to the node data of every node of every tree. -/
def forestMap (f : String → NodeInfo → NodeInfo) : List LinksTree → List LinksTree
  | [] => []
  | c :: cs => treeMap f c :: forestMap f cs

end

mutual

/-- Number of nodes of the tree. -/
def countNodes : LinksTree → Nat
  | .mk _ _ cs => 1 + countForest cs

/-- Number of nodes of the forest. -/
def countForest : List LinksTree → Nat
  | [] => 0
  | c :: cs => countNodes c + countForest cs

end

mutual

/-- Modelled from the spec: `helpers.extractVisitedUrlsFromTree` (not in the
snapshot) — the set of previously visited URLs recorded in a cached tree. -/
def extractVisitedUrlsFromTree : LinksTree → List VisitedUrl
  | .mk u i cs =>
    (match i.lastVisited with
     | some ts => [⟨u, ts⟩]
     | none => []) ++ forestVisitedUrls cs

/-- Visited URLs recorded in a forest. -/
def forestVisitedUrls : List LinksTree → List VisitedUrl
  | [] => []
  | c :: cs => extractVisitedUrlsFromTree c ++ forestVisitedUrls cs

end

/-! ## TreeAssembler (modelled from the spec)

`helpers.buildLinksTree` and `helpers.mergeNewLinksIntoTree` are not in the
snapshot; the walk / attach / order passes below follow §4.4 of the spec. -/

/-- A fresh chain of nodes for the remaining path segments; new nodes carry
only `name` and `lastUpdated`. -/
def freshChain (now url seg : String) : List String → LinksTree
  | [] => .mk url { name := some seg, lastUpdated := now } []
  | s :: rest => .mk url { name := some seg, lastUpdated := now }
      [freshChain now (url ++ "/" ++ s) s rest]

/-- Walk the segment list from a node, finding or creating the child whose URL
is the cumulative prefix at each step. -/
def insertPath (now : String) : List String → LinksTree → LinksTree
  | [], t => t
  | seg :: rest, .mk u i cs =>
    let cu := u ++ "/" ++ seg
    if cs.any (fun c => c.url == cu) then
      .mk u i (cs.map (fun c => if c.url == cu then insertPath now rest c else c))
    else
      .mk u i (cs ++ [freshChain now cu seg rest])

/-- Path segments of `url` relative to `rootUrl`; `none` when `url` is not the
root and not a descendant of it. -/
def relSegments (rootUrl url : String) : Option (List String) :=
  if url == rootUrl then some []
  else if strIsPre (rootUrl ++ "/") url then
    some (((chSplit '/' (url.data.drop (rootUrl.data.length + 1))).filter
      (fun l => l ≠ [])).map (fun l => String.mk l))
  else none

/-- Insert one URL into the tree; URLs outside the root subtree are skipped. -/
def insertUrlIntoTree (now rootUrl : String) (t : LinksTree) (url : String) : LinksTree :=
  match relSegments rootUrl url with
  | some segs => insertPath now segs t
  | none => t

/-- The per-URL data maps handed to the tree passes. -/
structure AttachMaps where
  visitedUrls : List VisitedUrl := []
  metadataCache : Option (List (String × PageMetadata)) := none
  cleanedHtmlCache : Option (List (String × String)) := none
  extractedLinksMap : List (String × ExtractedLinks) := []
  includeExtractedLinks : Bool := false

/-- Lookup into an optional map. -/
def optGet (m : Option (List (String × β))) (k : String) : Option β :=
  match m with
  | some l => amGet l k
  | none => none

/-- Attach per-URL data onto one node: non-null new values overwrite, null
values never erase (monotonic enrichment). -/
def attachNode (maps : AttachMaps) (u : String) (i : NodeInfo) : NodeInfo :=
  { i with
    metadata :=
      match optGet maps.metadataCache u with
      | some m => some m
      | none => i.metadata,
    cleanedHtml :=
      match optGet maps.cleanedHtmlCache u with
      | some h => some h
      | none => i.cleanedHtml,
    extractedLinks :=
      if maps.includeExtractedLinks then
        match amGet maps.extractedLinksMap u with
        | some e => some e
        | none => i.extractedLinks
      else i.extractedLinks,
    lastVisited :=
      match maps.visitedUrls.find? (fun v => v.url == u) with
      | some v => some v.lastVisited
      | none => i.lastVisited }

/-- Is the node a folder (has children)? -/
def isFolder (t : LinksTree) : Bool := !t.children.isEmpty

/-- Sibling comparison by name for `linksOrder = alphabetical`. -/
def nodeNameLE (a b : LinksTree) : Bool :=
  chLE (a.info.name.getD a.url).data (b.info.name.getD b.url).data

mutual

/-- Apply the ordering policies: folders before leaves when `folderFirst`,
siblings by name when `alphabetical`, insertion order otherwise. -/
def orderTree (folderFirst : Bool) (order : LinksOrder) : LinksTree → LinksTree
  | .mk u i cs =>
    let cs1 := orderForest folderFirst order cs
    let cs2 :=
      match order with
      | .alphabetical => insSort nodeNameLE cs1
      | .page => cs1
    let cs3 :=
      if folderFirst then cs2.filter isFolder ++ cs2.filter (fun c => !isFolder c)
      else cs2
    .mk u i cs3

/-- Ordering pass over a forest. -/
def orderForest (folderFirst : Bool) (order : LinksOrder) : List LinksTree → List LinksTree
  | [] => []
  | c :: cs => orderTree folderFirst order c :: orderForest folderFirst order cs

end

/-- Set `totalUrls` and `rootUrl` on the root node. -/
def setRootMeta (rootUrl : String) (t : LinksTree) : LinksTree :=
  match t with
  | .mk u i cs =>
    let total := countNodes (LinksTree.mk u i cs)
    .mk u { i with totalUrls := some total, rootUrl := some rootUrl } cs

/-- Inputs shared by the tree build / merge passes. -/
structure TreeBuildCtx where
  rootUrl : String
  now : String
  maps : AttachMaps
  folderFirst : Bool := false
  linksOrder : LinksOrder := .page

/-- Modelled from the spec: `helpers.mergeNewLinksIntoTree` (not in the
snapshot).  Inserts the new links into the existing tree via the build walk,
attaches per-URL data monotonically and re-applies the ordering. -/
def mergeNewLinksIntoTree (c : TreeBuildCtx) (existingTree : LinksTree)
    (newLinks : List String) : LinksTree :=
  let inserted := newLinks.foldl (insertUrlIntoTree c.now c.rootUrl) existingTree
  let attached := treeMap (attachNode c.maps) inserted
  let ordered := orderTree c.folderFirst c.linksOrder attached
  setRootMeta c.rootUrl ordered

/-- Modelled from the spec: `helpers.buildLinksTree` (not in the snapshot).
Builds a tree from scratch from the internal links and the visited URLs,
rooted at `rootUrl`. -/
def buildLinksTree (c : TreeBuildCtx) (internalLinks : List String) : LinksTree :=
  mergeNewLinksIntoTree c
    (.mk c.rootUrl { name := some (hostnameOf c.rootUrl), lastUpdated := c.now } [])
    (internalLinks ++ c.maps.visitedUrls.map (fun v => v.url))

/-- Filter the buckets of extracted links per the link-extraction options. -/
def filterExtracted (includeExternal includeMedia : Bool) (e : ExtractedLinks) : ExtractedLinks :=
  { internal := e.internal,
    external := if includeExternal then e.external else none,
    media := if includeMedia then e.media else none }

/-- Modelled from the spec: `helpers.processExtractedLinksInTree` (not in the
snapshot) — include or exclude `extractedLinks` on every node per the
`extractedLinks` option, filtering buckets per the extraction options. -/
def processExtractedLinksInTree (t : LinksTree) (includeExtractedLinks : Bool)
    (includeExternal includeMedia : Bool) : LinksTree :=
  if includeExtractedLinks then
    treeMap (fun _ i =>
      { i with extractedLinks := i.extractedLinks.map (filterExtracted includeExternal includeMedia) }) t
  else
    treeMap (fun _ i => { i with extractedLinks := none }) t

/-- Set the categorized skipped URLs on the root node. -/
def setRootSkipped (sk : SkippedLinks) (t : LinksTree) : LinksTree :=
  match t with
  | .mk u i cs => .mk u { i with skippedUrls := some sk } cs

/-- Modelled from the spec: `helpers.categorizeSkippedUrls` (not in the
snapshot) — bucket the skipped URLs, mirroring `ExtractedLinks`. -/
def categorizeSkippedUrls (skipped : List (String × String)) (rootUrl : String) : SkippedLinks :=
  { internal := skipped.filterMap (fun p =>
      if strIsPre rootUrl p.1 then some ⟨p.1, p.2⟩ else none),
    external := skipped.filterMap (fun p =>
      if strIsPre rootUrl p.1 then none else some ⟨p.1, p.2⟩) }

/-- Modelled from the spec: `LinkService.mergeVisitedUrls` (not in the
snapshot) — cache entries for URLs not re-visited in this request, plus a
fresh entry per URL visited in this request. -/
def mergeVisitedUrls (cached : List VisitedUrl) (visited : List String)
    (timestamps : List (String × String)) : List VisitedUrl :=
  cached.filter (fun v => !visited.contains v.url) ++
    visited.filterMap (fun u => (amGet timestamps u).map (fun ts => ⟨u, ts⟩))

/-- The per-request accumulated link sets (`_linksSets`). -/
structure LinksSets where
  internal : List String := []
  external : List String := []
  images : List String := []
  videos : List String := []
  documents : List String := []
  deriving Repr, DecidableEq

/-- Modelled from the spec: `LinkService.mergeLinks` (not in the snapshot) —
merge one page's extracted links into the global link sets. -/
def mergeLinks (e : ExtractedLinks) (s : LinksSets) : LinksSets :=
  { internal := setAddAll s.internal e.internal,
    external := setAddAll s.external (e.external.getD []),
    images := setAddAll s.images ((e.media.map (·.images)).getD []),
    videos := setAddAll s.videos ((e.media.map (·.videos)).getD []),
    documents := setAddAll s.documents ((e.media.map (·.documents)).getD []) }

/-! ## Configuration constants -/

/-- Modelled from the spec: the `_ENABLE_LINKS_CACHE` feature flag of
`@deepcrawl/types/configs` (not in the snapshot); caching is documented as
enabled. -/
def _ENABLE_LINKS_CACHE : Bool := true

/-- Modelled from the spec: `DEFAULT_CACHE_OPTIONS` (not in the snapshot);
cache reads and writes default to enabled with a day-scale TTL. -/
structure DefaultCacheOptions where
  enabled : Bool := true
  expirationTtl : Nat := 86400

/-- The default cache options value. -/
def DEFAULT_CACHE_OPTIONS : DefaultCacheOptions := {}

/-- Modelled from the spec: `MAX_KIN_LIMIT` (not in the snapshot), the
per-phase cap on kin scrapes; the implementation chooses a constant,
typically in `[10, 50]`. -/
def MAX_KIN_LIMIT : Nat := 20

/-- Modelled from the spec: the `PLATFORM_URLS` allowlist (not in the
snapshot); a static set of `scheme://host` origins, e.g. github.com and
linkedin.com. -/
def PLATFORM_URLS : List String := ["https://github.com", "https://linkedin.com"]

/-! ## Responses -/

/-- The error payload (`LinksErrorResponse`). -/
structure LinksErrorResponse where
  requestId : String
  success : Bool := false
  targetUrl : String
  error : String
  timestamp : String
  tree : Option LinksTree := none

/-- Successful links response without a tree; content fields live at the
response root. -/
structure LinksSuccessResponseWithoutTree where
  requestId : String
  success : Bool := true
  cached : Bool
  targetUrl : String
  timestamp : String
  ancestors : Option (List String) := none
  title : Option String := none
  description : Option String := none
  metadata : Option PageMetadata := none
  extractedLinks : Option ExtractedLinks := none
  cleanedHtml : Option String := none
  skippedUrls : Option SkippedLinks := none
  metrics : Option Metrics := none
  deriving Repr, DecidableEq

/-- Successful links response with a tree; content fields live in the tree. -/
structure LinksSuccessResponseWithTree where
  requestId : String
  success : Bool := true
  cached : Bool
  targetUrl : String
  timestamp : String
  ancestors : Option (List String) := none
  tree : LinksTree
  metrics : Option Metrics := none

/-- The discriminated union of successful links responses. -/
inductive LinksSuccessResponse where
  | withTree (r : LinksSuccessResponseWithTree)
  | withoutTree (r : LinksSuccessResponseWithoutTree)

/-- `createLinksErrorResponse` of the processor. -/
def createLinksErrorResponse (requestId targetUrl error : String) (withTree : Bool)
    (existingTree tree : Option LinksTree) (now : String) : LinksErrorResponse :=
  { requestId, success := false, targetUrl, error, timestamp := now,
    tree := if withTree && existingTree.isSome then tree else none }

/-- The default error message of `createLinksErrorResponse`. -/
def DEFAULT_SCRAPE_ERROR : String :=
  "Failed to scrape target URL. The URL may be unreachable, a placeholder URL, or returning an error status."

/-! ## Request environment and per-request state -/

/-- The environment of one request: the external collaborators consumed by
the processor.  `scrape` and `extract` are the Fetcher-backed scrape service
and the link extractor, deterministic per the spec; `kvTree` and `kvNonTree`
are the read views of the two KV keyspaces. -/
structure RequestCtx where
  platformUrls : List String := PLATFORM_URLS
  scrape : String → Except String ScrapedData
  extract : String → String → String → Bool → ExtractedLinks
  kvTree : String → Option LinksTree := fun _ => none
  kvNonTree : String → Option LinksSuccessResponseWithoutTree := fun _ => none
  now : String := "2026-01-01T00:00:00.000Z"
  requestId : String := "req-1"
  metricsValue : Metrics := {}

/-- The per-request mutable state of the tree pipeline.  `serviceCalls` is
observational instrumentation recording each invocation of
`scrapeService.scrape`, in order. -/
structure PipeState where
  visitedUrls : List String := []
  visitedUrlsTimestamps : List (String × String) := []
  scrapedDataCache : List (String × ScrapedData) := []
  lastVisitedUrlsInCache : List VisitedUrl := []
  skippedUrls : List (String × String) := []
  linksSets : LinksSets := {}
  extractedLinksMap : List (String × ExtractedLinks) := []
  serviceCalls : List String := []

/-- `isUrlInVisitedSet` of the processor. -/
def isUrlInVisitedSet (urlSet : List VisitedUrl) (urlToCheck : String) : Bool :=
  urlSet.any (fun v => v.url == urlToCheck)

/-- The per-request configuration shared by the tree pipeline sub-tasks. -/
structure ReqConfig where
  targetUrl : String
  rootUrl : String
  isPlatformUrl : Bool
  isCleanedHtml : Bool
  includeExtractedLinks : Bool
  cacheFresh : Bool

/-- `scrapeIfNotVisited` of the processor: scrape a URL only if not visited
before in this request; on success memoize, on failure record a skip reason
and return nothing. -/
def scrapeIfNotVisited (ctx : RequestCtx) (url : String) (st : PipeState) :
    Option ScrapedData × PipeState :=
  if st.visitedUrls.contains url then
    (amGet st.scrapedDataCache url, st)
  else
    match ctx.scrape url with
    | .ok result =>
      (some result,
        { st with
          visitedUrls := st.visitedUrls ++ [url],
          visitedUrlsTimestamps := amSet url ctx.now st.visitedUrlsTimestamps,
          lastVisitedUrlsInCache := st.lastVisitedUrlsInCache ++ [⟨url, ctx.now⟩],
          scrapedDataCache := amSet url result st.scrapedDataCache,
          serviceCalls := st.serviceCalls ++ [url] })
    | .error msg =>
      (none,
        { st with
          skippedUrls := amSet url ("Failed to scrape: " ++ msg) st.skippedUrls,
          serviceCalls := st.serviceCalls ++ [url] })

/-- Iterated `scrapeIfNotVisited` calls, keeping only the state. -/
def runScrapes (ctx : RequestCtx) (urls : List String) (st : PipeState) : PipeState :=
  urls.foldl (fun s u => (scrapeIfNotVisited ctx u s).2) st

/-- Consistency of the per-request memo: every URL marked visited has a
cached scrape result that the (deterministic) scrape service produced. -/
def scrapeConsistent (ctx : RequestCtx) (st : PipeState) : Prop :=
  ∀ u, st.visitedUrls.contains u = true →
    ∃ d, amGet st.scrapedDataCache u = some d ∧ ctx.scrape u = .ok d

/-- One kin URL of `processKinLinks`: skip when the fresh cached tree already
covers it, otherwise scrape, then extract and merge links unless covered. -/
def processKin1 (ctx : RequestCtx) (cfg : ReqConfig) (st : PipeState) (kin : String) : PipeState :=
  if !cfg.isCleanedHtml && isUrlInVisitedSet st.lastVisitedUrlsInCache kin && cfg.cacheFresh then
    st
  else
    match scrapeIfNotVisited ctx kin st with
    | (none, st1) => st1
    | (some d, st1) =>
      if isUrlInVisitedSet st1.lastVisitedUrlsInCache kin && cfg.cacheFresh then st1
      else
        let links := ctx.extract d.rawHtml kin cfg.rootUrl cfg.isPlatformUrl
        let st2 :=
          if cfg.includeExtractedLinks then
            { st1 with extractedLinksMap := amSet kin links st1.extractedLinksMap }
          else st1
        { st2 with linksSets := mergeLinks links st2.linksSets }

/-- `processKinLinks` of the processor over a list of kin paths. -/
def processKinLinks (ctx : RequestCtx) (cfg : ReqConfig) (paths : List String)
    (st : PipeState) : PipeState :=
  paths.foldl (processKin1 ctx cfg) st

/-- `processRootUrl` of the processor: scrape the given root, extract and
merge its links and process up to `MAX_KIN_LIMIT` of its descendants.  Also
returns the list of descendant kin submitted to `processKinLinks`. -/
def processRootUrl (ctx : RequestCtx) (cfg : ReqConfig) (rootUrl : String)
    (st : PipeState) : PipeState × List String :=
  if !cfg.isCleanedHtml && isUrlInVisitedSet st.lastVisitedUrlsInCache rootUrl && cfg.cacheFresh then
    (st, [])
  else
    match scrapeIfNotVisited ctx rootUrl st with
    | (none, st1) => (st1, [])
    | (some d, st1) =>
      let links := ctx.extract d.rawHtml rootUrl rootUrl cfg.isPlatformUrl
      let st2 :=
        if cfg.includeExtractedLinks then
          { st1 with extractedLinksMap := amSet rootUrl links st1.extractedLinksMap }
        else st1
      let st3 := { st2 with linksSets := mergeLinks links st2.linksSets }
      let rootDescendants := getDescendantPaths rootUrl links.internal
      let kin := rootDescendants.take MAX_KIN_LIMIT
      (processKinLinks ctx cfg kin st3, kin)

/-- `processTargetUrl` of the processor: scrape the target; with no raw HTML
build the links error response, otherwise extract and merge the target's
links. -/
def processTargetUrl (ctx : RequestCtx) (cfg : ReqConfig)
    (existingTree : Option LinksTree) (st : PipeState) :
    PipeState × Except LinksErrorResponse (ScrapedData × ExtractedLinks) :=
  match scrapeIfNotVisited ctx cfg.targetUrl st with
  | (some d, st1) =>
    if d.rawHtml == "" then
      (st1, .error (createLinksErrorResponse ctx.requestId cfg.targetUrl
        DEFAULT_SCRAPE_ERROR true existingTree existingTree ctx.now))
    else
      let links := ctx.extract d.rawHtml cfg.targetUrl cfg.rootUrl cfg.isPlatformUrl
      let st2 :=
        if cfg.includeExtractedLinks then
          { st1 with extractedLinksMap := amSet cfg.targetUrl links st1.extractedLinksMap }
        else st1
      let st3 := { st2 with linksSets := mergeLinks links st2.linksSets }
      (st3, .ok (d, links))
  | (none, st1) =>
    (st1, .error (createLinksErrorResponse ctx.requestId cfg.targetUrl
      DEFAULT_SCRAPE_ERROR true existingTree existingTree ctx.now))

/-! ## Request-derived values -/

/-- `checkIsPlatformUrl` of the processor: the pre-defined platform-URL check
has higher priority than the user flag. -/
def checkIsPlatformUrl (platformUrls : List String) (targetUrl : String)
    (isPlatformUrlProp : Bool) : Bool :=
  let normalizedOrigin := schemeOf targetUrl ++ "://" ++ strLower (hostnameOf targetUrl)
  let isPrebuilt := platformUrls.any (fun p => strLower p == normalizedOrigin)
  if isPrebuilt then true else isPlatformUrlProp

/-- The root URL derivation of the processor (identical in the tree and
non-tree paths): target for platform URLs, origin under `subdomainAsRootUrl`,
base domain otherwise. -/
def deriveRootUrl (platformUrls : List String) (targetUrl : String)
    (subdomainAsRootUrl isPlatformUrlProp : Bool) : String :=
  if checkIsPlatformUrl platformUrls targetUrl isPlatformUrlProp then targetUrl
  else if subdomainAsRootUrl then urlOrigin targetUrl
  else getRootUrl targetUrl

/-- The normalized target URL of a request. -/
def requestTargetUrl (params : LinksOptions) : String :=
  targetUrlHelper params.url

/-- The platform-mode flag of a request. -/
def requestIsPlatform (platformUrls : List String) (params : LinksOptions) : Bool :=
  checkIsPlatformUrl platformUrls (requestTargetUrl params) (params.isPlatformUrl.getD false)

/-- The derived root URL of a request. -/
def requestRootUrl (platformUrls : List String) (params : LinksOptions) : String :=
  deriveRootUrl platformUrls (requestTargetUrl params)
    (params.subdomainAsRootUrl.getD false) (params.isPlatformUrl.getD false)

/-- `rootKeyForCache` of the processor: the stable root key used for the KV
tree cache is the derived root URL. -/
def rootKeyForCache (platformUrls : List String) (params : LinksOptions) : String :=
  requestRootUrl platformUrls params

/-- The effective `cacheOptions.enabled` after merging the provided options
over `DEFAULT_CACHE_OPTIONS`. -/
def effectiveCacheEnabled (params : LinksOptions) : Bool :=
  (params.cacheOptions.bind (fun c => c.enabled)).getD DEFAULT_CACHE_OPTIONS.enabled

/-- Cache reads and writes happen only when the feature flag and the merged
option are both on. -/
def cacheOn (params : LinksOptions) : Bool :=
  _ENABLE_LINKS_CACHE && effectiveCacheEnabled params

/-! ## Response assembly -/

/-- The optional-content-field chain shared by the two `responseWithoutTree`
sites of the processor: title and description only when truthy and metadata
was not requested; metadata only when requested and present; extracted links
and cleaned HTML per their flags. -/
def applyContentFields (r : LinksSuccessResponseWithoutTree) (d : Option ScrapedData)
    (isMetadata isCleanedHtml includeExtractedLinks : Bool)
    (links : Option ExtractedLinks) : LinksSuccessResponseWithoutTree :=
  let r1 :=
    if strTruthy (d.bind (fun x => x.title)) && !isMetadata then
      { r with title := d.bind (fun x => x.title) }
    else r
  let r2 :=
    if strTruthy (d.bind (fun x => x.description)) && !isMetadata then
      { r1 with description := d.bind (fun x => x.description) }
    else r1
  let r3 :=
    if isMetadata && (d.bind (fun x => x.metadata)).isSome then
      { r2 with metadata := d.bind (fun x => x.metadata) }
    else r2
  let r4 :=
    if includeExtractedLinks && links.isSome then
      { r3 with extractedLinks := links }
    else r3
  let r5 :=
    if isCleanedHtml && strTruthy (d.bind (fun x => x.cleanedHtml)) then
      { r4 with cleanedHtml := d.bind (fun x => x.cleanedHtml) }
    else r4
  r5

/-- Drop an empty string value. -/
def cleanOptStr : Option String → Option String
  | some s => if s = "" then none else some s
  | none => none

/-- Modelled from the spec: `cleanEmptyValues` (not in the snapshot) —
removes empty values from a response; on this representation optional
empty-string fields are dropped. -/
def cleanEmptyValues (r : LinksSuccessResponseWithoutTree) : LinksSuccessResponseWithoutTree :=
  { r with
    title := cleanOptStr r.title
    description := cleanOptStr r.description
    cleanedHtml := cleanOptStr r.cleanedHtml }

/-- Encoding of an optional boolean for the non-tree cache key. -/
def boolCode : Option Bool → String
  | none => "u"
  | some true => "1"
  | some false => "0"

/-- Modelled from the spec: `getLinksNonTreeCacheKey` (not in the snapshot) —
a stable key over the entire normalized option set, including the HTTP
method; realized as an injective field encoding. -/
def getLinksNonTreeCacheKey (params : LinksOptions) (isGETRequest : Bool) : String :=
  "links:nontree:" ++ (if isGETRequest then "GET" else "POST") ++ ":" ++
    targetUrlHelper params.url ++ ":" ++
    boolCode params.extractedLinks ++ boolCode params.metadata ++
    boolCode params.cleanedHtml ++ boolCode params.robots ++
    boolCode params.sitemapXML ++ boolCode params.subdomainAsRootUrl ++
    boolCode params.isPlatformUrl ++ boolCode params.folderFirst ++
    boolCode (params.linkExtractionOptions.bind (fun o => o.includeExternal)) ++
    boolCode (params.linkExtractionOptions.bind (fun o => o.includeMedia))

/-! ## Non-tree pipeline -/

/-- The observable outcome of `processNonTreeRequest`: the returned value (or
the thrown error message), the cache write issued, the cache-hit flag and the
non-tree key used. -/
structure NonTreeRunResult where
  response : Except String LinksSuccessResponseWithoutTree
  kvPut : Option (String × LinksSuccessResponseWithoutTree) := none
  cacheHit : Bool := false
  nonTreeKey : String := ""

/-- `processNonTreeRequest` of the processor: the lightweight non-tree path
with its own cache keyspace. -/
def processNonTreeRequest (ctx : RequestCtx) (params : LinksOptions)
    (targetUrl : String) (isGETRequest : Bool) : NonTreeRunResult :=
  let isMetadata := params.metadata.getD false
  let isCleanedHtml := params.cleanedHtml.getD false
  let includeExtractedLinks := params.extractedLinks.getD false
  let isPlatformUrl := checkIsPlatformUrl ctx.platformUrls targetUrl
    (params.isPlatformUrl.getD false)
  let rootUrl := deriveRootUrl ctx.platformUrls targetUrl
    (params.subdomainAsRootUrl.getD false) (params.isPlatformUrl.getD false)
  let nonTreeCacheKey := getLinksNonTreeCacheKey params isGETRequest
  match (if cacheOn params then ctx.kvNonTree nonTreeCacheKey else none) with
  | some cachedResponse =>
    { response := .ok { cachedResponse with cached := true, timestamp := ctx.now },
      cacheHit := true, nonTreeKey := nonTreeCacheKey }
  | none =>
    match ctx.scrape targetUrl with
    | .error msg => { response := .error msg, nonTreeKey := nonTreeCacheKey }
    | .ok d =>
      if d.rawHtml == "" then
        { response := .error "Failed to scrape target URL", nonTreeKey := nonTreeCacheKey }
      else
        let extractedTargetLinks : Option ExtractedLinks :=
          if includeExtractedLinks then
            let allExtractedLinks := ctx.extract d.rawHtml targetUrl rootUrl isPlatformUrl
            some (filterExtracted
              ((params.linkExtractionOptions.bind (fun o => o.includeExternal)).getD false)
              ((params.linkExtractionOptions.bind (fun o => o.includeMedia)).getD false)
              allExtractedLinks)
          else none
        let response0 : LinksSuccessResponseWithoutTree :=
          { requestId := ctx.requestId, success := true, cached := false,
            targetUrl, timestamp := ctx.now }
        let response1 := applyContentFields response0 (some d) isMetadata isCleanedHtml
          includeExtractedLinks extractedTargetLinks
        let response2 :=
          if (params.metricsOptions.bind (fun m => m.enable)).getD false then
            { response1 with metrics := some ctx.metricsValue }
          else response1
        let finalResponse := cleanEmptyValues response2
        { response := .ok finalResponse,
          kvPut := if cacheOn params then some (nonTreeCacheKey, finalResponse) else none,
          nonTreeKey := nonTreeCacheKey }

/-! ## Tree pipeline -/

/-- The observable outcome of the tree pipeline of `processLinksRequest`: the
returned or thrown value, the links error response built internally (if any),
the KV tree write issued, the final per-request state, and the kin phases'
dispatch (which URL `processRootUrl` was invoked on and which URLs each phase
submitted to `processKinLinks`). -/
structure TreeRunResult where
  response : Except String LinksSuccessResponse
  builtError : Option LinksErrorResponse := none
  kvPut : Option (String × LinksTree) := none
  finalState : PipeState := {}
  rootDispatch : Option String := none
  rootPhaseKin : List String := []
  ancestorPhaseKin : List String := []
  descendantPhaseKin : List String := []
  treeRootKey : String := ""

/-- The outcome-dependent part of the tree pipeline result. -/
structure TreeTail where
  response : Except String LinksSuccessResponse
  builtError : Option LinksErrorResponse := none
  kvPut : Option (String × LinksTree) := none
  descendantPhaseKin : List String := []
  finalState : PipeState := {}

/-- The `responseWithoutTree` branch of the tree pipeline (no tree produced):
content fields at the response root. -/
def treeModeResponseWithoutTree (ctx : RequestCtx) (targetUrl : String)
    (cacheFresh : Bool) (ancestors : List String) (d : Option ScrapedData)
    (isMetadata isCleanedHtml includeExtractedLinks : Bool)
    (linksFromTarget : Option ExtractedLinks)
    (categorizedSkippedUrls : Option SkippedLinks)
    (metricsEnabled : Bool) : LinksSuccessResponseWithoutTree :=
  let response0 : LinksSuccessResponseWithoutTree :=
    { requestId := ctx.requestId, success := true, cached := cacheFresh,
      targetUrl, timestamp := ctx.now, ancestors := some ancestors }
  let response1 := applyContentFields response0 d isMetadata isCleanedHtml
    includeExtractedLinks linksFromTarget
  let response2 :=
    match categorizedSkippedUrls with
    | some sk => { response1 with skippedUrls := some sk }
    | none => response1
  let response3 := cleanEmptyValues response2
  if metricsEnabled then { response3 with metrics := some ctx.metricsValue } else response3

/-- The per-request cache read of the tree pipeline: the KV tree store is
consulted under the root key when caching is on. -/
def requestCacheRead (ctx : RequestCtx) (params : LinksOptions) : Option LinksTree :=
  if cacheOn params then ctx.kvTree (rootKeyForCache ctx.platformUrls params) else none

/-- The per-request configuration derived at the head of the tree pipeline. -/
def requestCfg (ctx : RequestCtx) (params : LinksOptions) : ReqConfig :=
  { targetUrl := requestTargetUrl params
    rootUrl := requestRootUrl ctx.platformUrls params
    isPlatformUrl := requestIsPlatform ctx.platformUrls params
    isCleanedHtml := params.cleanedHtml.getD false
    includeExtractedLinks := params.extractedLinks.getD false
    cacheFresh := (requestCacheRead ctx params).isSome }

/-- The initial per-request state: the visited URLs recorded in the cached
tree, when one was found. -/
def requestInitState (ctx : RequestCtx) (params : LinksOptions) : PipeState :=
  { lastVisitedUrlsInCache :=
      match requestCacheRead ctx params with
      | some t => extractVisitedUrlsFromTree t
      | none => [] }

/-- The root-phase dispatch (lines 730-739 of the processor): when the target
is not the root, `processRootUrl` is invoked on the root URL for non-platform
requests, and on `ancestors[1]` in platform mode. -/
def requestRootDispatch (ctx : RequestCtx) (params : LinksOptions) : Option String :=
  if requestTargetUrl params ≠ requestRootUrl ctx.platformUrls params then
    if !requestIsPlatform ctx.platformUrls params then
      some (requestRootUrl ctx.platformUrls params)
    else if (getAncestorPaths (requestTargetUrl params)).length > 0 then
      some ((getAncestorPaths (requestTargetUrl params)).getD 1 "")
    else none
  else none

/-- The root phase of the tree pipeline: the state after `processRootUrl`
and the descendant kin it submitted. -/
def rootPhaseOf (ctx : RequestCtx) (params : LinksOptions) : PipeState × List String :=
  match requestRootDispatch ctx params with
  | some u => processRootUrl ctx (requestCfg ctx params) u (requestInitState ctx params)
  | none => (requestInitState ctx params, [])

/-- The ancestor kin submitted by the ancestor phase: all ancestors except the
root URL, capped at `MAX_KIN_LIMIT`. -/
def requestAncestorsExceptRoot (ctx : RequestCtx) (params : LinksOptions) : List String :=
  let ancestors := getAncestorPaths (requestTargetUrl params)
  if ancestors.length > 0 then
    (ancestors.filter (fun u => u ≠ requestRootUrl ctx.platformUrls params)).take MAX_KIN_LIMIT
  else []

/-- The state after the root and ancestor phases. -/
def stAfterKinPhases (ctx : RequestCtx) (params : LinksOptions) : PipeState :=
  processKinLinks ctx (requestCfg ctx params) (requestAncestorsExceptRoot ctx params)
    (rootPhaseOf ctx params).1

/-- The target phase of the tree pipeline. -/
def targetPhaseOf (ctx : RequestCtx) (params : LinksOptions) :
    PipeState × Except LinksErrorResponse (ScrapedData × ExtractedLinks) :=
  processTargetUrl ctx (requestCfg ctx params) (requestCacheRead ctx params)
    (stAfterKinPhases ctx params)

/-- The state after the optional descendant phase (run when the target is the
root and descendants were discovered). -/
def stAfterDescendants (ctx : RequestCtx) (params : LinksOptions) : PipeState :=
  let st3 := (targetPhaseOf ctx params).1
  match (targetPhaseOf ctx params).2 with
  | .error _ => st3
  | .ok _ =>
    let descendants := getDescendantPaths (requestTargetUrl params) st3.linksSets.internal
    if requestRootUrl ctx.platformUrls params == requestTargetUrl params &&
        descendants.length > 0 then
      processKinLinks ctx (requestCfg ctx params) (descendants.take MAX_KIN_LIMIT) st3
    else st3

/-- The outcome-dependent tail of the tree pipeline: on a failed target
scrape the links error response is thrown flattened to its message (the
processor's catch block rethrows `new Error(errorMessage)`); otherwise the
descendant phase runs, the tree is built or merged, the KV put is issued and
only then the cleaned-HTML / metadata enrichment pass runs on the returned
tree.  `buildCtxOf` is the build context of the pre-put tree pass: the
metadata map and the extracted-links map are provided, but no cleaned-HTML
map is. -/
def buildCtxOf (ctx : RequestCtx) (params : LinksOptions) : TreeBuildCtx :=
  let st4 := stAfterDescendants ctx params
  { rootUrl := requestRootUrl ctx.platformUrls params
    now := ctx.now
    maps :=
      { visitedUrls := mergeVisitedUrls st4.lastVisitedUrlsInCache
          st4.visitedUrls st4.visitedUrlsTimestamps
        metadataCache := some (st4.scrapedDataCache.filterMap
          (fun p => p.2.metadata.map (fun m => (p.1, m))))
        cleanedHtmlCache := none
        extractedLinksMap := st4.extractedLinksMap
        includeExtractedLinks := params.extractedLinks.getD false }
    folderFirst := params.folderFirst.getD false
    linksOrder := params.linksOrder.getD .page }

/-- The tree handed to the KV put: built from scratch, or merged into the
cached tree when one exists and internal links were collected. -/
def finalTree0Of (ctx : RequestCtx) (params : LinksOptions) : LinksTree :=
  let existingTree := requestCacheRead ctx params
  let st4 := stAfterDescendants ctx params
  let internalLinksOpt : Option (List String) :=
    if st4.linksSets.internal.isEmpty then none else some st4.linksSets.internal
  match existingTree, internalLinksOpt with
  | some t, some ls =>
    if existingTree.isSome then mergeNewLinksIntoTree (buildCtxOf ctx params) t ls
    else buildLinksTree (buildCtxOf ctx params) (internalLinksOpt.getD [])
  | _, _ => buildLinksTree (buildCtxOf ctx params) (internalLinksOpt.getD [])

/-- The outcome-dependent tail of the tree pipeline (continued): response
assembly, the KV put of the pre-enrichment tree, and the post-put
cleaned-HTML / metadata enrichment pass. -/
def treeTailOf (ctx : RequestCtx) (params : LinksOptions) : TreeTail :=
  let targetUrl := requestTargetUrl params
  let rootUrl := requestRootUrl ctx.platformUrls params
  let rootKey := rootKeyForCache ctx.platformUrls params
  let ancestors := getAncestorPaths targetUrl
  let isMetadata := params.metadata.getD false
  let isCleanedHtml := params.cleanedHtml.getD false
  let includeExtractedLinks := params.extractedLinks.getD false
  let existingTree := requestCacheRead ctx params
  let cacheFresh := existingTree.isSome
  let st3 := (targetPhaseOf ctx params).1
  match (targetPhaseOf ctx params).2 with
  | .error er =>
    { response := .error er.error, builtError := some er, finalState := st3 }
  | .ok td =>
    let _targetScrapeResult := td.1
    let allTargetLinks := td.2
    let _linksFromTarget := filterExtracted
      ((params.linkExtractionOptions.bind (fun o => o.includeExternal)).getD false)
      ((params.linkExtractionOptions.bind (fun o => o.includeMedia)).getD false)
      allTargetLinks
    let descendants := getDescendantPaths targetUrl st3.linksSets.internal
    let descendantKin :=
      if rootUrl == targetUrl && descendants.length > 0 then
        descendants.take MAX_KIN_LIMIT
      else []
    let st4 := stAfterDescendants ctx params
    let mergedVisitedUrls := mergeVisitedUrls st4.lastVisitedUrlsInCache
      st4.visitedUrls st4.visitedUrlsTimestamps
    let metadataCache := st4.scrapedDataCache.filterMap
      (fun p => p.2.metadata.map (fun m => (p.1, m)))
    let finalTree0 := finalTree0Of ctx params
    let kvPut := if cacheOn params then some (rootKey, finalTree0) else none
    let finalTree1 :=
      if isCleanedHtml || !isMetadata then
        let cleanedHtmlCache := st4.scrapedDataCache.filterMap
          (fun p => p.2.cleanedHtml.map (fun h => (p.1, h)))
        let enrichMaps : AttachMaps :=
          { visitedUrls := mergedVisitedUrls
            metadataCache := if isMetadata then some metadataCache else none
            cleanedHtmlCache := some cleanedHtmlCache
            extractedLinksMap := st4.extractedLinksMap
            includeExtractedLinks }
        let enrichCtx : TreeBuildCtx :=
          { rootUrl
            now := ctx.now
            maps := enrichMaps
            folderFirst := params.folderFirst.getD false
            linksOrder := params.linksOrder.getD .page }
        mergeNewLinksIntoTree enrichCtx finalTree0 []
      else finalTree0
    let finalTree2 := processExtractedLinksInTree finalTree1 includeExtractedLinks
      ((params.linkExtractionOptions.bind (fun o => o.includeExternal)).getD false)
      ((params.linkExtractionOptions.bind (fun o => o.includeMedia)).getD false)
    let categorizedSkippedUrls :=
      if st4.skippedUrls.isEmpty then none
      else some (categorizeSkippedUrls st4.skippedUrls rootUrl)
    let finalTree3 :=
      match categorizedSkippedUrls with
      | some sk => setRootSkipped sk finalTree2
      | none => finalTree2
    let responseWithTree : LinksSuccessResponseWithTree :=
      { requestId := ctx.requestId, success := true, cached := cacheFresh,
        targetUrl, timestamp := ctx.now, ancestors := some ancestors,
        tree := finalTree3,
        metrics :=
          if (params.metricsOptions.bind (fun m => m.enable)).getD false then
            some ctx.metricsValue
          else none }
    { response := .ok (.withTree responseWithTree), kvPut,
      descendantPhaseKin := descendantKin, finalState := st4 }

/-- The tree pipeline of `processLinksRequest` (the `withTree` path), with the
parallel sub-tasks run in dispatch order: the root phase, the ancestor phase,
then the target. -/
def processLinksRequestTree (ctx : RequestCtx) (params : LinksOptions) : TreeRunResult :=
  { response := (treeTailOf ctx params).response
    builtError := (treeTailOf ctx params).builtError
    kvPut := (treeTailOf ctx params).kvPut
    finalState := (treeTailOf ctx params).finalState
    rootDispatch := requestRootDispatch ctx params
    rootPhaseKin := (rootPhaseOf ctx params).2
    ancestorPhaseKin := requestAncestorsExceptRoot ctx params
    descendantPhaseKin := (treeTailOf ctx params).descendantPhaseKin
    treeRootKey := rootKeyForCache ctx.platformUrls params }

/-- `processLinksRequest` of the processor: mode selection between the
non-tree path and the tree pipeline.  The `Except` models the thrown `Error`
(its message) versus the returned success response. -/
def processLinksRequest (ctx : RequestCtx) (params : LinksOptions)
    (isGETRequest : Bool) : Except String LinksSuccessResponse :=
  let normalizedTargetUrl := requestTargetUrl params
  let withTree := params.tree ≠ some false
  if !withTree then
    (processNonTreeRequest ctx params normalizedTargetUrl isGETRequest).response.map
      LinksSuccessResponse.withoutTree
  else
    (processLinksRequestTree ctx params).response


/-- The success value of an `Except`, when present. -/
def okOrNone : Except ε α → Option α
  | .ok a => some a
  | .error _ => none

/-- The error value of an `Except`, when present. -/
def errOrNone : Except ε α → Option ε
  | .ok _ => none
  | .error e => some e

/-! ## General lemmas -/

theorem amGet_amSet_self (k : String) (v : β) (m : List (String × β)) :
    amGet (amSet k v m) k = some v := by
  induction m with
  | nil => simp [amSet, amGet]
  | cons hd tl ih =>
    obtain ⟨k', v'⟩ := hd
    by_cases h : k' = k
    · simp [amSet, amGet, h]
    · simp [amSet, amGet, h, ih]

theorem amGet_amSet_ne (k k' : String) (v : β) (m : List (String × β)) (h : k' ≠ k) :
    amGet (amSet k v m) k' = amGet m k' := by
  have hne : ¬ k = k' := fun hh => h hh.symm
  induction m with
  | nil => simp [amSet, amGet, hne]
  | cons hd tl ih =>
    obtain ⟨k0, v0⟩ := hd
    by_cases h0 : k0 = k
    · subst h0
      simp [amSet, amGet, hne]
    · simp only [amSet, amGet, if_neg h0]
      by_cases h1 : k0 = k'
      · simp [amGet, h1]
      · simp [amGet, h1, ih]

theorem contains_append_left (l1 l2 : List String) (x : String)
    (h : l1.contains x = true) : (l1 ++ l2).contains x = true := by
  rw [List.elem_iff] at *
  exact List.mem_append_left _ h

theorem contains_append_right (l1 l2 : List String) (x : String)
    (h : l2.contains x = true) : (l1 ++ l2).contains x = true := by
  rw [List.elem_iff] at *
  exact List.mem_append_right _ h

theorem foldl_preserves (P : σ → Prop) (f : σ → α → σ)
    (hstep : ∀ s a, P s → P (f s a)) :
    ∀ (l : List α) (s : σ), P s → P (l.foldl f s)
  | [], _, hs => hs
  | a :: as, s, hs => foldl_preserves P f hstep as (f s a) (hstep s a hs)

/-! ## Tree lemmas -/

theorem LinksTree.ind (motive : LinksTree → Prop)
    (h : ∀ u i cs, (∀ c, c ∈ cs → motive c) → motive (.mk u i cs)) :
    ∀ t, motive t
  | .mk u i cs => h u i cs (fun c hc =>
      have hlt : sizeOf c < sizeOf (LinksTree.mk u i cs) := by
        have h1 := List.sizeOf_lt_of_mem hc
        simp only [mk.sizeOf_spec]
        omega
      LinksTree.ind motive h c)
termination_by t => sizeOf t

theorem forestAll_eq_all (p : String → NodeInfo → Bool) (l : List LinksTree) :
    forestAll p l = l.all (treeAll p) := by
  induction l with
  | nil => rfl
  | cons c cs ih => simp [forestAll, ih, List.all_cons]

theorem forestMap_eq_map (f : String → NodeInfo → NodeInfo) (l : List LinksTree) :
    forestMap f l = l.map (treeMap f) := by
  induction l with
  | nil => rfl
  | cons c cs ih => simp [forestMap, ih]

theorem treeAll_treeMap (p : String → NodeInfo → Bool) (f : String → NodeInfo → NodeInfo) :
    ∀ t, treeAll p (treeMap f t) = treeAll (fun u i => p u (f u i)) t := by
  intro t
  induction t using LinksTree.ind with
  | _ u i cs ih =>
    rw [treeMap, treeAll, treeAll, forestMap_eq_map, forestAll_eq_all, forestAll_eq_all,
      List.all_map]
    congr 1
    induction cs with
    | nil => rfl
    | cons c rest ihl =>
      rw [List.all_cons, List.all_cons, Function.comp_apply, ih c (List.mem_cons_self c rest),
        ihl (fun x hx => ih x (List.mem_cons_of_mem c hx))]


/-! ## Claim C1: the tree cache key -/

/-- C1 counterexample: two tree-mode requests that agree on the root URL but
differ in the shape-affecting option `folderFirst` nevertheless use the same
tree cache key — the key is the derived root URL itself, not a hash over the
shape-affecting options. -/
theorem c1_tree_key_folderFirst_collision :
    rootKeyForCache PLATFORM_URLS { url := "https://example.com/docs", folderFirst := some false } =
      rootKeyForCache PLATFORM_URLS { url := "https://example.com/docs", folderFirst := some true } ∧
    rootKeyForCache PLATFORM_URLS { url := "https://example.com/docs", folderFirst := some false } =
      "https://example.com" ∧
    ({ url := "https://example.com/docs", folderFirst := some false } : LinksOptions).folderFirst ≠
      ({ url := "https://example.com/docs", folderFirst := some true } : LinksOptions).folderFirst := by
  refine ⟨by decide, by decide, by decide⟩

/-- C1 (amended): the tree cache key is exactly the derived root URL of the
request.  It therefore agrees for any two requests with the same `url`,
`subdomainAsRootUrl` and `isPlatformUrl` inputs — in particular it never
depends on `folderFirst`, `linksOrder`, `extractedLinks`,
`linkExtractionOptions`, `cleanedHtml` or `metadata`. -/
theorem c1_tree_key_is_root_url (pl : List String) (p q : LinksOptions)
    (hurl : p.url = q.url) (hsub : p.subdomainAsRootUrl = q.subdomainAsRootUrl)
    (hplat : p.isPlatformUrl = q.isPlatformUrl) :
    rootKeyForCache pl p = deriveRootUrl pl (targetUrlHelper p.url)
      (p.subdomainAsRootUrl.getD false) (p.isPlatformUrl.getD false) ∧
    rootKeyForCache pl p = rootKeyForCache pl q := by
  constructor
  · rfl
  · unfold rootKeyForCache requestRootUrl requestTargetUrl
    rw [hurl, hsub, hplat]

/-- C1 witness: two requests differing in every content and shape option but
agreeing on `url`, `subdomainAsRootUrl` and `isPlatformUrl` share the key. -/
theorem c1_tree_key_is_root_url_witness :
    rootKeyForCache PLATFORM_URLS
        { url := "https://example.com/docs", cleanedHtml := some true,
          metadata := some true, folderFirst := some true } =
      rootKeyForCache PLATFORM_URLS
        { url := "https://example.com/docs", cleanedHtml := some false,
          linksOrder := some .alphabetical, extractedLinks := some true } :=
  (c1_tree_key_is_root_url PLATFORM_URLS _ _ rfl rfl rfl).2

/-! ## Claim C6: root URL derivation -/

/-- C6: `rootUrl` is derived with the documented precedence — the platform
check is the allowlist membership of the target's `scheme://host` origin
(compared case-insensitively) OR the user flag; a platform target is its own
root; otherwise `subdomainAsRootUrl` selects the origin; otherwise the
base-domain (`scheme://eTLD+1`) form is used.  `deriveRootUrl` is the shared
derivation of both the tree and the non-tree paths. -/
theorem c6_root_url_precedence (pl : List String) (target : String) (sub flag : Bool) :
    (checkIsPlatformUrl pl target flag =
      (pl.any (fun pu => strLower pu == schemeOf target ++ "://" ++ strLower (hostnameOf target)) || flag)) ∧
    ((pl.any (fun pu => strLower pu == schemeOf target ++ "://" ++ strLower (hostnameOf target)) || flag) = true →
      deriveRootUrl pl target sub flag = target) ∧
    (checkIsPlatformUrl pl target flag = false → sub = true →
      deriveRootUrl pl target sub flag = urlOrigin target) ∧
    (checkIsPlatformUrl pl target flag = false → sub = false →
      deriveRootUrl pl target sub flag = getRootUrl target) := by
  have hc : checkIsPlatformUrl pl target flag =
      (pl.any (fun pu => strLower pu == schemeOf target ++ "://" ++ strLower (hostnameOf target)) || flag) := by
    unfold checkIsPlatformUrl
    cases hany : pl.any (fun pu => strLower pu == schemeOf target ++ "://" ++ strLower (hostnameOf target)) <;>
      simp [hany]
  refine ⟨hc, ?_, ?_, ?_⟩
  · intro h
    unfold deriveRootUrl
    rw [hc, h, if_pos rfl]
  · intro hfalse hsub
    unfold deriveRootUrl
    rw [hfalse, hsub]
    simp
  · intro hfalse hsub
    unfold deriveRootUrl
    rw [hfalse, hsub]
    simp

/-- C6 witness: a platform target (allowlisted origin) is its own root even
with `subdomainAsRootUrl` set; a non-platform target with
`subdomainAsRootUrl` gets its origin; a plain target gets its base domain. -/
theorem c6_root_url_precedence_witness :
    deriveRootUrl PLATFORM_URLS "https://github.com/alice" true false = "https://github.com/alice" ∧
    deriveRootUrl PLATFORM_URLS "https://sub.example.com/a" true false = "https://sub.example.com" ∧
    deriveRootUrl PLATFORM_URLS "https://sub.example.com/a" false false = "https://example.com" := by
  refine ⟨(c6_root_url_precedence PLATFORM_URLS "https://github.com/alice" true false).2.1 (by decide), ?_, ?_⟩
  · have h := (c6_root_url_precedence PLATFORM_URLS "https://sub.example.com/a" true false).2.2.1
      (by decide) rfl
    rw [h]
    decide
  · have h := (c6_root_url_precedence PLATFORM_URLS "https://sub.example.com/a" false false).2.2.2
      (by decide) rfl
    rw [h]
    decide

/-! ## Claim C5: non-tree cache hits -/

/-- C5: a non-tree request that hits the cache returns exactly the cached
response with `cached := true` and the timestamp refreshed to now; every
other field is preserved unchanged (the record update touches nothing else),
and neither the scrape service nor the extractor is consulted. -/
theorem c5_nontree_cache_hit (ctx : RequestCtx) (params : LinksOptions)
    (targetUrl : String) (isGET : Bool) (cached : LinksSuccessResponseWithoutTree)
    (henabled : effectiveCacheEnabled params = true)
    (hhit : ctx.kvNonTree (getLinksNonTreeCacheKey params isGET) = some cached) :
    (processNonTreeRequest ctx params targetUrl isGET).response =
      .ok { cached with cached := true, timestamp := ctx.now } ∧
    (processNonTreeRequest ctx params targetUrl isGET).cacheHit = true ∧
    (processNonTreeRequest ctx params targetUrl isGET).kvPut = none := by
  have hon : cacheOn params = true := by
    simp [cacheOn, _ENABLE_LINKS_CACHE, henabled]
  refine ⟨?_, ?_, ?_⟩ <;> simp [processNonTreeRequest, hon, hhit]

/-- C5 witness: a concrete cache hit preserves the stored title while
refreshing `cached` and `timestamp`. -/
theorem c5_nontree_cache_hit_witness :
    (processNonTreeRequest
        { scrape := fun _ => .error "down"
          extract := fun _ _ _ _ => {}
          kvNonTree := fun _ => some
            { requestId := "req-0"
              cached := false
              targetUrl := "https://example.com/blog/post-1"
              timestamp := "2025-01-01T00:00:00.000Z"
              title := some "Old title" } }
        { url := "https://example.com/blog/post-1", tree := some false, metadata := some true }
        "https://example.com/blog/post-1" false).response =
      .ok
        { requestId := "req-0"
          cached := true
          targetUrl := "https://example.com/blog/post-1"
          timestamp := "2026-01-01T00:00:00.000Z"
          title := some "Old title" } :=
  (c5_nontree_cache_hit _ _ _ _ _ (by decide) rfl).1

/-! ## Claim C10: root-level content fields vs the metadata option -/

theorem applyContentFields_proj (r : LinksSuccessResponseWithoutTree) (d : ScrapedData)
    (isMetadata isCleanedHtml includeExtractedLinks : Bool) (links : Option ExtractedLinks)
    (ht : r.title = none) (hd : r.description = none) (hm : r.metadata = none)
    (he : r.extractedLinks = none) (hc : r.cleanedHtml = none) :
    (applyContentFields r (some d) isMetadata isCleanedHtml includeExtractedLinks links).title =
      (if strTruthy d.title && !isMetadata then d.title else none) ∧
    (applyContentFields r (some d) isMetadata isCleanedHtml includeExtractedLinks links).description =
      (if strTruthy d.description && !isMetadata then d.description else none) ∧
    (applyContentFields r (some d) isMetadata isCleanedHtml includeExtractedLinks links).metadata =
      (if isMetadata then d.metadata else none) ∧
    (applyContentFields r (some d) isMetadata isCleanedHtml includeExtractedLinks links).extractedLinks =
      (if includeExtractedLinks && links.isSome then links else none) ∧
    (applyContentFields r (some d) isMetadata isCleanedHtml includeExtractedLinks links).cleanedHtml =
      (if isCleanedHtml && strTruthy d.cleanedHtml then d.cleanedHtml else none) ∧
    (applyContentFields r (some d) isMetadata isCleanedHtml includeExtractedLinks links).requestId =
      r.requestId ∧
    (applyContentFields r (some d) isMetadata isCleanedHtml includeExtractedLinks links).cached =
      r.cached ∧
    (applyContentFields r (some d) isMetadata isCleanedHtml includeExtractedLinks links).timestamp =
      r.timestamp := by
  unfold applyContentFields
  simp only [Option.bind_some]
  split <;> split <;> split <;> split <;> split <;>
    cases isMetadata <;> simp_all [Option.isSome_iff_exists] <;>
    (try split_ifs <;> simp_all) <;>
    (try cases hdm : d.metadata <;> simp_all)

theorem cleanOptStr_of_truthy_if (o : Option String) (b : Bool) :
    cleanOptStr (if strTruthy o && b then o else none) =
      (if strTruthy o && b then o else none) := by
  cases o with
  | none => simp [strTruthy, cleanOptStr]
  | some st =>
    by_cases h : st = ""
    · simp [strTruthy, cleanOptStr, h]
    · cases b <;> simp [strTruthy, cleanOptStr, h]

theorem cleanOptStr_truthy_self (o : Option String) :
    cleanOptStr (if strTruthy o then o else none) = (if strTruthy o then o else none) := by
  have h := cleanOptStr_of_truthy_if o true
  simpa using h

theorem cleanOptStr_if_and (o : Option String) (P : Prop) [Decidable P] :
    cleanOptStr (if strTruthy o = true ∧ P then o else none) =
      (if strTruthy o = true ∧ P then o else none) := by
  by_cases hp : P
  · cases o with
    | none => simp [strTruthy, cleanOptStr]
    | some st => by_cases h : st = "" <;> simp [strTruthy, cleanOptStr, h, hp]
  · simp [cleanOptStr, hp]

theorem cleanEmptyValues_proj (r : LinksSuccessResponseWithoutTree) :
    (cleanEmptyValues r).title = cleanOptStr r.title ∧
    (cleanEmptyValues r).description = cleanOptStr r.description ∧
    (cleanEmptyValues r).metadata = r.metadata := by
  refine ⟨rfl, rfl, rfl⟩

/-- C10: in a success response without a tree, the root-level `title` and
`description` come from the target scrape only when the `metadata` option is
off; with `metadata` on they are omitted and only the metadata object is
attached.  This holds for the tree-mode without-tree response builder and for
the non-tree pipeline. -/
theorem c10_content_fields_vs_metadata (ctx : RequestCtx) (params : LinksOptions)
    (targetUrl : String) (isGET : Bool) (d : ScrapedData)
    (cacheFresh : Bool) (ancestors : List String)
    (isCleanedHtml includeExtractedLinks metricsEnabled : Bool)
    (links : Option ExtractedLinks) (sk : Option SkippedLinks)
    (hmiss : ctx.kvNonTree (getLinksNonTreeCacheKey params isGET) = none)
    (hok : ctx.scrape targetUrl = .ok d)
    (hhtml : d.rawHtml ≠ "") :
    ((treeModeResponseWithoutTree ctx targetUrl cacheFresh ancestors (some d)
        true isCleanedHtml includeExtractedLinks links sk metricsEnabled).title = none ∧
     (treeModeResponseWithoutTree ctx targetUrl cacheFresh ancestors (some d)
        true isCleanedHtml includeExtractedLinks links sk metricsEnabled).description = none ∧
     (treeModeResponseWithoutTree ctx targetUrl cacheFresh ancestors (some d)
        true isCleanedHtml includeExtractedLinks links sk metricsEnabled).metadata = d.metadata) ∧
    ((treeModeResponseWithoutTree ctx targetUrl cacheFresh ancestors (some d)
        false isCleanedHtml includeExtractedLinks links sk metricsEnabled).metadata = none ∧
     (treeModeResponseWithoutTree ctx targetUrl cacheFresh ancestors (some d)
        false isCleanedHtml includeExtractedLinks links sk metricsEnabled).title =
       (if strTruthy d.title then d.title else none) ∧
     (treeModeResponseWithoutTree ctx targetUrl cacheFresh ancestors (some d)
        false isCleanedHtml includeExtractedLinks links sk metricsEnabled).description =
       (if strTruthy d.description then d.description else none)) ∧
    (params.metadata = some true →
      (okOrNone (processNonTreeRequest ctx params targetUrl isGET).response).map
          (fun r => (r.title, r.description, r.metadata)) =
        some (none, none, d.metadata)) ∧
    (params.metadata.getD false = false →
      (okOrNone (processNonTreeRequest ctx params targetUrl isGET).response).map
          (fun r => (r.metadata, r.title)) =
        some (none, if strTruthy d.title then d.title else none)) := by
  have hbeq : (d.rawHtml == "") = false := by
    simp [hhtml]
  constructor
  · have happly := applyContentFields_proj
      { requestId := ctx.requestId, success := true, cached := cacheFresh,
        targetUrl := targetUrl, timestamp := ctx.now, ancestors := some ancestors }
      d true isCleanedHtml includeExtractedLinks links rfl rfl rfl rfl rfl
    have h1 := happly.1
    have h2 := happly.2.1
    have h3 := happly.2.2.1
    clear happly
    unfold treeModeResponseWithoutTree
    cases sk <;> cases metricsEnabled <;>
      simp_all [cleanEmptyValues, cleanOptStr, h1, h2, h3]
  constructor
  · have happly := applyContentFields_proj
      { requestId := ctx.requestId, success := true, cached := cacheFresh,
        targetUrl := targetUrl, timestamp := ctx.now, ancestors := some ancestors }
      d false isCleanedHtml includeExtractedLinks links rfl rfl rfl rfl rfl
    have h1 := happly.1
    have h2 := happly.2.1
    have h3 := happly.2.2.1
    clear happly
    simp only [Bool.not_false, Bool.and_true] at h1 h2 h3
    unfold treeModeResponseWithoutTree
    cases sk <;> cases metricsEnabled <;>
      simp_all [cleanEmptyValues, h1, h2, h3, cleanOptStr_truthy_self]
  · have hnt : ∀ im : Bool, params.metadata.getD false = im →
        (okOrNone (processNonTreeRequest ctx params targetUrl isGET).response).map
            (fun r => (r.title, r.description, r.metadata)) =
          some (if strTruthy d.title && !im then d.title else none,
            if strTruthy d.description && !im then d.description else none,
            if im then d.metadata else none) := by
      intro im him
      subst him
      have happly2 := applyContentFields_proj
        { requestId := ctx.requestId, success := true, cached := false,
          targetUrl := targetUrl, timestamp := ctx.now }
        d (params.metadata.getD false) (params.cleanedHtml.getD false)
        (params.extractedLinks.getD false)
        (if params.extractedLinks.getD false then
          some (filterExtracted
            ((params.linkExtractionOptions.bind (fun o => o.includeExternal)).getD false)
            ((params.linkExtractionOptions.bind (fun o => o.includeMedia)).getD false)
            (ctx.extract d.rawHtml targetUrl
              (deriveRootUrl ctx.platformUrls targetUrl (params.subdomainAsRootUrl.getD false)
                (params.isPlatformUrl.getD false))
              (checkIsPlatformUrl ctx.platformUrls targetUrl (params.isPlatformUrl.getD false))))
         else none)
        rfl rfl rfl rfl rfl
      have h1 := happly2.1
      have h2 := happly2.2.1
      have h3 := happly2.2.2.1
      clear happly2
      have hscrut : (if cacheOn params then
          ctx.kvNonTree (getLinksNonTreeCacheKey params isGET) else none) = none := by
        cases hco : cacheOn params <;> simp [hmiss]
      unfold processNonTreeRequest
      simp only [hscrut, hok, hbeq]
      cases hme : (params.metricsOptions.bind (fun m => m.enable)).getD false <;>
        simp_all [okOrNone, cleanEmptyValues, h1, h2, h3, cleanOptStr_of_truthy_if,
          cleanOptStr_if_and]
    constructor
    · intro hm
      have h := hnt true (by rw [hm]; rfl)
      cases hr : okOrNone (processNonTreeRequest ctx params targetUrl isGET).response with
      | none => rw [hr] at h; simp at h
      | some r =>
        rw [hr] at h
        simp only [Option.map_some, Option.some_inj, Prod.mk.injEq] at h
        simp_all
    · intro hm
      have h := hnt false hm
      cases hr : okOrNone (processNonTreeRequest ctx params targetUrl isGET).response with
      | none => rw [hr] at h; simp at h
      | some r =>
        rw [hr] at h
        simp_all [Prod.mk.injEq]

/-- C10 witness: with `metadata` requested, a concrete without-tree response
carries no root-level title. -/
theorem c10_content_fields_vs_metadata_witness :
    (treeModeResponseWithoutTree
      { scrape := fun _ => .ok { rawHtml := "<html>", title := some "T" }
        extract := fun _ _ _ _ => {} }
      "https://example.com" false [] (some { rawHtml := "<html>", title := some "T" })
      true false false none none false).title = none :=
  (c10_content_fields_vs_metadata
    { scrape := fun _ => .ok { rawHtml := "<html>", title := some "T" }
      extract := fun _ _ _ _ => {} }
    { url := "https://example.com" } "https://example.com" false
    { rawHtml := "<html>", title := some "T" } false [] false false false none none
    rfl rfl (by decide)).1.1

/-! ## Pipeline projection lemmas -/

theorem plrt_response (ctx : RequestCtx) (params : LinksOptions) :
    (processLinksRequestTree ctx params).response = (treeTailOf ctx params).response := by
  simp only [processLinksRequestTree]

theorem plrt_builtError (ctx : RequestCtx) (params : LinksOptions) :
    (processLinksRequestTree ctx params).builtError = (treeTailOf ctx params).builtError := by
  simp only [processLinksRequestTree]

theorem plrt_kvPut (ctx : RequestCtx) (params : LinksOptions) :
    (processLinksRequestTree ctx params).kvPut = (treeTailOf ctx params).kvPut := by
  simp only [processLinksRequestTree]

theorem plrt_finalState (ctx : RequestCtx) (params : LinksOptions) :
    (processLinksRequestTree ctx params).finalState = (treeTailOf ctx params).finalState := by
  simp only [processLinksRequestTree]

theorem plrt_rootDispatch (ctx : RequestCtx) (params : LinksOptions) :
    (processLinksRequestTree ctx params).rootDispatch = requestRootDispatch ctx params := by
  simp only [processLinksRequestTree]

theorem plrt_rootPhaseKin (ctx : RequestCtx) (params : LinksOptions) :
    (processLinksRequestTree ctx params).rootPhaseKin = (rootPhaseOf ctx params).2 := by
  simp only [processLinksRequestTree]

theorem plrt_ancestorPhaseKin (ctx : RequestCtx) (params : LinksOptions) :
    (processLinksRequestTree ctx params).ancestorPhaseKin = requestAncestorsExceptRoot ctx params := by
  simp only [processLinksRequestTree]

theorem plrt_descendantPhaseKin (ctx : RequestCtx) (params : LinksOptions) :
    (processLinksRequestTree ctx params).descendantPhaseKin =
      (treeTailOf ctx params).descendantPhaseKin := by
  simp only [processLinksRequestTree]

/-! ## Claim C9: kin phase caps -/

theorem processRootUrl_kin_le (ctx : RequestCtx) (cfg : ReqConfig) (u : String) (st : PipeState) :
    (processRootUrl ctx cfg u st).2.length ≤ MAX_KIN_LIMIT := by
  unfold processRootUrl
  split
  · simp
  · split
    · simp
    · simp only [List.length_take]
      exact Nat.min_le_left _ _

theorem treeTail_descKin_le (ctx : RequestCtx) (params : LinksOptions) :
    (treeTailOf ctx params).descendantPhaseKin.length ≤ MAX_KIN_LIMIT := by
  unfold treeTailOf
  split
  · simp
  · dsimp only
    split
    · simp only [List.length_take]
      exact Nat.min_le_left _ _
    · simp

/-- C9: each kin phase of the tree pipeline — the descendants submitted by
the root phase, the ancestors of the target except the root, and the
descendants of the target when it is the root — submits at most
`MAX_KIN_LIMIT` URLs to kin scraping, for every request, cache state, scrape
oracle and extractor. -/
theorem c9_kin_phase_caps (ctx : RequestCtx) (params : LinksOptions) :
    (processLinksRequestTree ctx params).rootPhaseKin.length ≤ MAX_KIN_LIMIT ∧
    (processLinksRequestTree ctx params).ancestorPhaseKin.length ≤ MAX_KIN_LIMIT ∧
    (processLinksRequestTree ctx params).descendantPhaseKin.length ≤ MAX_KIN_LIMIT := by
  refine ⟨?_, ?_, ?_⟩
  · rw [plrt_rootPhaseKin]
    unfold rootPhaseOf
    split
    · exact processRootUrl_kin_le _ _ _ _
    · simp
  · rw [plrt_ancestorPhaseKin]
    unfold requestAncestorsExceptRoot
    dsimp only
    split
    · simp only [List.length_take]
      exact Nat.min_le_left _ _
    · simp
  · rw [plrt_descendantPhaseKin]
    exact treeTail_descKin_le ctx params

/-! ## Claim C2: the error response for a failed target scrape -/

/-- C2 (code bug, evaluated at the failing input): when the target scrape
yields no raw HTML, `processTargetUrl` does build the `LinksErrorResponse`
with `success = false`, the target URL, a timestamp, the error message and
the previously cached tree — but what escapes `processLinksRequest` is the
flattened plain error (the catch block rethrows `new Error(errorMessage)`),
carrying only the message: the structured response with the tree is dropped. -/
theorem c2_error_response_flattened :
    ((processLinksRequestTree
        { scrape := fun _ => .error "boom"
          extract := fun _ _ _ _ => {}
          kvTree := fun k =>
            if k == "https://example.com" then
              some (.mk "https://example.com"
                { lastUpdated := "t0", lastVisited := some "t0" } [])
            else none }
        { url := "https://example.com/a", subdomainAsRootUrl := some true }).builtError.map
      (fun e => (e.success, e.targetUrl, e.timestamp, e.error))) =
      some (false, "https://example.com/a", "2026-01-01T00:00:00.000Z", DEFAULT_SCRAPE_ERROR) ∧
    ((processLinksRequestTree
        { scrape := fun _ => .error "boom"
          extract := fun _ _ _ _ => {}
          kvTree := fun k =>
            if k == "https://example.com" then
              some (.mk "https://example.com"
                { lastUpdated := "t0", lastVisited := some "t0" } [])
            else none }
        { url := "https://example.com/a", subdomainAsRootUrl := some true }).builtError.bind
      (fun e => e.tree)) =
      some (.mk "https://example.com" { lastUpdated := "t0", lastVisited := some "t0" } []) ∧
    (processLinksRequestTree
        { scrape := fun _ => .error "boom"
          extract := fun _ _ _ _ => {}
          kvTree := fun k =>
            if k == "https://example.com" then
              some (.mk "https://example.com"
                { lastUpdated := "t0", lastVisited := some "t0" } [])
            else none }
        { url := "https://example.com/a", subdomainAsRootUrl := some true }).response =
      .error DEFAULT_SCRAPE_ERROR := by
  refine ⟨by decide, by rfl, by rfl⟩

/-! ## Claim C8: per-request scrape memoization -/

theorem scrapeIfNotVisited_success_state (ctx : RequestCtx) (u : String)
    (st st1 : PipeState) (d : ScrapedData)
    (h : scrapeIfNotVisited ctx u st = (some d, st1)) :
    st1.visitedUrls.contains u = true ∧ amGet st1.scrapedDataCache u = some d := by
  unfold scrapeIfNotVisited at h
  by_cases hv : st.visitedUrls.contains u = true
  · rw [if_pos hv] at h
    obtain ⟨h1, h2⟩ := Prod.mk.injEq .. ▸ h
    exact ⟨h2 ▸ hv, h2 ▸ h1⟩
  · rw [if_neg hv] at h
    cases hsc : ctx.scrape u with
    | ok r =>
      rw [hsc] at h
      obtain ⟨h1, h2⟩ := Prod.mk.injEq .. ▸ h
      subst h2
      cases h1
      constructor
      · exact contains_append_right _ _ _ (by simp [List.contains])
      · exact amGet_amSet_self _ _ _
    | error msg =>
      rw [hsc] at h
      simp at h

theorem scrapeIfNotVisited_preserves_memo (ctx : RequestCtx) (u w : String)
    (st : PipeState) (d : ScrapedData)
    (hv : st.visitedUrls.contains u = true)
    (hc : amGet st.scrapedDataCache u = some d) :
    (scrapeIfNotVisited ctx w st).2.visitedUrls.contains u = true ∧
    amGet (scrapeIfNotVisited ctx w st).2.scrapedDataCache u = some d := by
  unfold scrapeIfNotVisited
  by_cases hw : st.visitedUrls.contains w = true
  · rw [if_pos hw]
    exact ⟨hv, hc⟩
  · rw [if_neg hw]
    have hne : u ≠ w := by
      intro he
      rw [he] at hv
      exact hw hv
    cases hsc : ctx.scrape w with
    | ok r =>
      refine ⟨contains_append_left _ _ _ hv, ?_⟩
      simpa using amGet_amSet_ne w u r st.scrapedDataCache hne ▸ hc
    | error msg =>
      exact ⟨hv, hc⟩

theorem runScrapes_preserves_memo (ctx : RequestCtx) (u : String) (urls : List String)
    (st : PipeState) (d : ScrapedData)
    (hv : st.visitedUrls.contains u = true)
    (hc : amGet st.scrapedDataCache u = some d) :
    (runScrapes ctx urls st).visitedUrls.contains u = true ∧
    amGet (runScrapes ctx urls st).scrapedDataCache u = some d := by
  unfold runScrapes
  refine foldl_preserves
    (fun s => s.visitedUrls.contains u = true ∧ amGet s.scrapedDataCache u = some d)
    (fun s w => (scrapeIfNotVisited ctx w s).2) ?_ urls st ⟨hv, hc⟩
  intro s w hs
  exact scrapeIfNotVisited_preserves_memo ctx u w s d hs.1 hs.2

theorem scrapeIfNotVisited_memo_hit (ctx : RequestCtx) (u : String) (st : PipeState)
    (d : ScrapedData)
    (hv : st.visitedUrls.contains u = true)
    (hc : amGet st.scrapedDataCache u = some d) :
    scrapeIfNotVisited ctx u st = (some d, st) := by
  unfold scrapeIfNotVisited
  rw [if_pos hv, hc]

/-- C8 counterexample: a call of `scrapeIfNotVisited` whose scrape failed has
completed, yet the next call for the same URL invokes the scrape service
again (the call trace grows from one to two invocations) and returns no
memoized data — failed scrapes are not memoized. -/
theorem c8_failed_call_rescrapes :
    (scrapeIfNotVisited { scrape := fun _ => .error "boom", extract := fun _ _ _ _ => {} }
        "https://example.com"
        (scrapeIfNotVisited { scrape := fun _ => .error "boom", extract := fun _ _ _ _ => {} }
          "https://example.com" {}).2).2.serviceCalls =
      ["https://example.com", "https://example.com"] ∧
    (scrapeIfNotVisited { scrape := fun _ => .error "boom", extract := fun _ _ _ _ => {} }
        "https://example.com"
        (scrapeIfNotVisited { scrape := fun _ => .error "boom", extract := fun _ _ _ _ => {} }
          "https://example.com" {}).2).1 = none := by
  refine ⟨by decide, by decide⟩

/-- C8 (amended): after a call of `scrapeIfNotVisited` for a URL has
completed successfully (returning scraped data), every later call for the
same URL — after arbitrarily many intervening calls — returns the memoized
`ScrapedData` from the per-request cache and leaves the state (in particular
the scrape-service call trace) unchanged: the scrape service is not invoked
again. -/
theorem c8_memoized_after_success (ctx : RequestCtx) (u : String) (st st1 : PipeState)
    (d : ScrapedData) (h : scrapeIfNotVisited ctx u st = (some d, st1))
    (urls : List String) :
    scrapeIfNotVisited ctx u (runScrapes ctx urls st1) =
      (some d, runScrapes ctx urls st1) := by
  have hs := scrapeIfNotVisited_success_state ctx u st st1 d h
  have hp := runScrapes_preserves_memo ctx u urls st1 d hs.1 hs.2
  exact scrapeIfNotVisited_memo_hit ctx u (runScrapes ctx urls st1) d hp.1 hp.2

/-- C8 witness: a concrete successful scrape is served from the memo on the
second call, across an intervening call for a different URL. -/
theorem c8_memoized_after_success_witness :
    scrapeIfNotVisited
        { scrape := fun _ => .ok { rawHtml := "<h>" }, extract := fun _ _ _ _ => {} }
        "https://example.com"
        (runScrapes
          { scrape := fun _ => .ok { rawHtml := "<h>" }, extract := fun _ _ _ _ => {} }
          ["https://example.com/b"]
          (scrapeIfNotVisited
            { scrape := fun _ => .ok { rawHtml := "<h>" }, extract := fun _ _ _ _ => {} }
            "https://example.com" {}).2) =
      (some { rawHtml := "<h>" },
        runScrapes
          { scrape := fun _ => .ok { rawHtml := "<h>" }, extract := fun _ _ _ _ => {} }
          ["https://example.com/b"]
          (scrapeIfNotVisited
            { scrape := fun _ => .ok { rawHtml := "<h>" }, extract := fun _ _ _ _ => {} }
            "https://example.com" {}).2) :=
  c8_memoized_after_success
    { scrape := fun _ => .ok { rawHtml := "<h>" }, extract := fun _ _ _ _ => {} }
    "https://example.com" {} _ { rawHtml := "<h>" } rfl ["https://example.com/b"]

/-! ## Claim C7: non-target scrape failures are absorbed -/

theorem scrapeConsistent_scrape (ctx : RequestCtx) (w : String) (st : PipeState)
    (h : scrapeConsistent ctx st) :
    scrapeConsistent ctx (scrapeIfNotVisited ctx w st).2 := by
  unfold scrapeIfNotVisited
  by_cases hw : st.visitedUrls.contains w = true
  · rw [if_pos hw]
    exact h
  · rw [if_neg hw]
    cases hsc : ctx.scrape w with
    | ok r =>
      intro u hu
      simp only at hu
      rw [List.elem_iff, List.mem_append, List.mem_singleton] at hu
      cases hu with
      | inl hin =>
        have hne : u ≠ w := by
          intro he
          subst he
          rw [List.elem_iff] at hw
          exact hw hin
        obtain ⟨d', hc', hsc'⟩ := h u (by rw [List.elem_iff]; exact hin)
        refine ⟨d', ?_, hsc'⟩
        simp only
        rw [amGet_amSet_ne w u r st.scrapedDataCache hne]
        exact hc'
      | inr he =>
        subst he
        exact ⟨r, by simp only; exact amGet_amSet_self _ _ _, hsc⟩
    | error msg =>
      intro u hu
      exact h u hu

theorem scrapeConsistent_kin1 (ctx : RequestCtx) (cfg : ReqConfig) (st : PipeState)
    (kin : String) (h : scrapeConsistent ctx st) :
    scrapeConsistent ctx (processKin1 ctx cfg st kin) := by
  unfold processKin1
  split
  · exact h
  · split
    next st1 heq =>
      have h2 := scrapeConsistent_scrape ctx kin st h
      rw [heq] at h2
      exact h2
    next d st1 heq =>
      have h1 : scrapeConsistent ctx st1 := by
        have h2 := scrapeConsistent_scrape ctx kin st h
        rw [heq] at h2
        exact h2
      split
      · exact h1
      · dsimp only
        split <;> (intro u hu; exact h1 u hu)

theorem scrapeConsistent_kinLinks (ctx : RequestCtx) (cfg : ReqConfig) (paths : List String)
    (st : PipeState) (h : scrapeConsistent ctx st) :
    scrapeConsistent ctx (processKinLinks ctx cfg paths st) := by
  unfold processKinLinks
  exact foldl_preserves (scrapeConsistent ctx) (processKin1 ctx cfg)
    (fun s a hs => scrapeConsistent_kin1 ctx cfg s a hs) paths st h

theorem scrapeConsistent_rootUrl (ctx : RequestCtx) (cfg : ReqConfig) (u : String)
    (st : PipeState) (h : scrapeConsistent ctx st) :
    scrapeConsistent ctx (processRootUrl ctx cfg u st).1 := by
  unfold processRootUrl
  split
  · exact h
  · split
    next st1 heq =>
      have h2 := scrapeConsistent_scrape ctx u st h
      rw [heq] at h2
      exact h2
    next d st1 heq =>
      have h1 : scrapeConsistent ctx st1 := by
        have h2 := scrapeConsistent_scrape ctx u st h
        rw [heq] at h2
        exact h2
      dsimp only
      apply scrapeConsistent_kinLinks
      split <;> (intro v hv; exact h1 v hv)

theorem scrapeConsistent_init (ctx : RequestCtx) (params : LinksOptions) :
    scrapeConsistent ctx (requestInitState ctx params) := by
  intro u hu
  simp [requestInitState, List.contains] at hu

theorem scrapeConsistent_afterKin (ctx : RequestCtx) (params : LinksOptions) :
    scrapeConsistent ctx (stAfterKinPhases ctx params) := by
  unfold stAfterKinPhases
  apply scrapeConsistent_kinLinks
  unfold rootPhaseOf
  split
  · exact scrapeConsistent_rootUrl _ _ _ _ (scrapeConsistent_init ctx params)
  · exact scrapeConsistent_init ctx params

theorem scrapeIfNotVisited_ok (ctx : RequestCtx) (u : String) (st : PipeState)
    (d : ScrapedData) (hcons : scrapeConsistent ctx st) (hok : ctx.scrape u = .ok d) :
    ∃ st1, scrapeIfNotVisited ctx u st = (some d, st1) := by
  unfold scrapeIfNotVisited
  by_cases hv : st.visitedUrls.contains u = true
  · rw [if_pos hv]
    obtain ⟨d', hc', hsc'⟩ := hcons u hv
    rw [hok] at hsc'
    cases hsc'
    exact ⟨st, by rw [hc']⟩
  · rw [if_neg hv, hok]
    exact ⟨_, rfl⟩

theorem processTargetUrl_ok (ctx : RequestCtx) (cfg : ReqConfig)
    (et : Option LinksTree) (st : PipeState) (d : ScrapedData)
    (hcons : scrapeConsistent ctx st)
    (hok : ctx.scrape cfg.targetUrl = .ok d) (hhtml : d.rawHtml ≠ "") :
    ∃ st1 pair, processTargetUrl ctx cfg et st = (st1, .ok pair) := by
  obtain ⟨st1, h1⟩ := scrapeIfNotVisited_ok ctx cfg.targetUrl st d hcons hok
  unfold processTargetUrl
  rw [h1]
  dsimp only
  have hbeq : (d.rawHtml == "") = false := by simp [hhtml]
  rw [hbeq]
  simp only [Bool.false_eq_true, if_false]
  split <;> exact ⟨_, _, rfl⟩


theorem treeTail_ok_of_target (ctx : RequestCtx) (params : LinksOptions) (d : ScrapedData)
    (hok : ctx.scrape (requestTargetUrl params) = .ok d) (hhtml : d.rawHtml ≠ "") :
    ∃ r, (processLinksRequestTree ctx params).response = .ok r := by
  have hcons := scrapeConsistent_afterKin ctx params
  obtain ⟨st1, pair, htp⟩ := processTargetUrl_ok ctx (requestCfg ctx params)
    (requestCacheRead ctx params) (stAfterKinPhases ctx params) d hcons hok hhtml
  rw [plrt_response]
  unfold treeTailOf
  have h2 : targetPhaseOf ctx params = (st1, .ok pair) := by
    unfold targetPhaseOf
    exact htp
  rw [h2]
  dsimp only
  exact ⟨_, rfl⟩

/-- C7: a failing scrape of a non-target URL is absorbed:
`scrapeIfNotVisited` returns nothing instead of propagating and records the
URL in `skippedUrls` with reason `Failed to scrape: <message>`; and whenever
the target scrape itself succeeds (its result has raw HTML), the tree
pipeline still completes with a success response, whatever the other URLs'
scrapes do. -/
theorem c7_kin_failures_absorbed (ctx : RequestCtx) (params : LinksOptions)
    (st : PipeState) (u msg : String) (d : ScrapedData)
    (hnv : st.visitedUrls.contains u = false)
    (herr : ctx.scrape u = .error msg)
    (hok : ctx.scrape (requestTargetUrl params) = .ok d)
    (hhtml : d.rawHtml ≠ "") :
    (scrapeIfNotVisited ctx u st).1 = none ∧
    amGet (scrapeIfNotVisited ctx u st).2.skippedUrls u =
      some ("Failed to scrape: " ++ msg) ∧
    ∃ r, (processLinksRequestTree ctx params).response = .ok r := by
  have hnv2 : u ∉ st.visitedUrls := by
    intro hm
    have h3 : st.visitedUrls.contains u = true := List.elem_iff.mpr hm
    rw [hnv] at h3
    exact Bool.false_ne_true h3
  refine ⟨?_, ?_, treeTail_ok_of_target ctx params d hok hhtml⟩
  · unfold scrapeIfNotVisited
    rw [if_neg (by simp [hnv2]), herr]
  · unfold scrapeIfNotVisited
    rw [if_neg (by simp [hnv2]), herr]
    dsimp only
    exact amGet_amSet_self _ _ _

/-- C7 witness: a concrete run in which an ancestor URL fails to scrape while
the target succeeds: the failure is recorded and the request succeeds. -/
theorem c7_kin_failures_absorbed_witness :
    amGet (scrapeIfNotVisited
        { scrape := fun x =>
            if x == "https://example.com/bad" then .error "boom"
            else .ok { rawHtml := "<h>" }
          extract := fun _ _ _ _ => {} }
        "https://example.com/bad" {}).2.skippedUrls "https://example.com/bad" =
      some ("Failed to scrape: " ++ "boom") :=
  (c7_kin_failures_absorbed
    { scrape := fun x =>
        if x == "https://example.com/bad" then .error "boom"
        else .ok { rawHtml := "<h>" }
      extract := fun _ _ _ _ => {} }
    { url := "https://example.com", subdomainAsRootUrl := some true }
    {} "https://example.com/bad" "boom" { rawHtml := "<h>" }
    (by decide) rfl rfl (by decide)).2.1


/-! ## Claim C3: root-phase dispatch and root scraping -/

theorem calls_mono_scrape (ctx : RequestCtx) (w : String) (st : PipeState) (x : String)
    (hx : x ∈ st.serviceCalls) : x ∈ (scrapeIfNotVisited ctx w st).2.serviceCalls := by
  unfold scrapeIfNotVisited
  by_cases hw : st.visitedUrls.contains w = true
  · rw [if_pos hw]
    exact hx
  · rw [if_neg hw]
    cases hsc : ctx.scrape w with
    | ok r => exact List.mem_append_left _ hx
    | error msg => exact List.mem_append_left _ hx

theorem calls_mono_kin1 (ctx : RequestCtx) (cfg : ReqConfig) (st : PipeState)
    (kin : String) (x : String) (hx : x ∈ st.serviceCalls) :
    x ∈ (processKin1 ctx cfg st kin).serviceCalls := by
  unfold processKin1
  split
  · exact hx
  · split
    next st1 heq =>
      have h2 := calls_mono_scrape ctx kin st x hx
      rw [heq] at h2
      exact h2
    next d st1 heq =>
      have h1 : x ∈ st1.serviceCalls := by
        have h2 := calls_mono_scrape ctx kin st x hx
        rw [heq] at h2
        exact h2
      split
      · exact h1
      · dsimp only
        split <;> exact h1

theorem calls_mono_kinLinks (ctx : RequestCtx) (cfg : ReqConfig) (paths : List String)
    (st : PipeState) (x : String) (hx : x ∈ st.serviceCalls) :
    x ∈ (processKinLinks ctx cfg paths st).serviceCalls := by
  unfold processKinLinks
  exact foldl_preserves (fun s => x ∈ s.serviceCalls) (processKin1 ctx cfg)
    (fun s a hs => calls_mono_kin1 ctx cfg s a x hs) paths st hx

theorem calls_mono_target (ctx : RequestCtx) (cfg : ReqConfig) (et : Option LinksTree)
    (st : PipeState) (x : String) (hx : x ∈ st.serviceCalls) :
    x ∈ (processTargetUrl ctx cfg et st).1.serviceCalls := by
  unfold processTargetUrl
  split
  next d st1 heq =>
    have h2 := calls_mono_scrape ctx cfg.targetUrl st x hx
    rw [heq] at h2
    split
    · exact h2
    · dsimp only
      split <;> exact h2
  next st1 heq =>
    have h2 := calls_mono_scrape ctx cfg.targetUrl st x hx
    rw [heq] at h2
    exact h2

set_option maxHeartbeats 1000000 in
theorem calls_mono_stAfterDesc (ctx : RequestCtx) (params : LinksOptions) (x : String)
    (hx : x ∈ (targetPhaseOf ctx params).1.serviceCalls) :
    x ∈ (stAfterDescendants ctx params).serviceCalls := by
  unfold stAfterDescendants
  split
  · exact hx
  · dsimp only
    split
    · exact calls_mono_kinLinks _ _ _ _ _ hx
    · exact hx

theorem calls_mono_treeTail (ctx : RequestCtx) (params : LinksOptions) (x : String)
    (hx : x ∈ (targetPhaseOf ctx params).1.serviceCalls) :
    x ∈ (treeTailOf ctx params).finalState.serviceCalls := by
  have h := calls_mono_stAfterDesc ctx params x hx
  unfold treeTailOf
  dsimp only
  cases htp : (targetPhaseOf ctx params).2 with
  | error e =>
    dsimp only
    exact hx
  | ok v =>
    dsimp only
    exact h


theorem rootPhase_scrape_ok (ctx : RequestCtx) (params : LinksOptions) (d : ScrapedData)
    (hmiss : requestCacheRead ctx params = none)
    (hdisp : requestRootDispatch ctx params = some (requestRootUrl ctx.platformUrls params))
    (hok : ctx.scrape (requestRootUrl ctx.platformUrls params) = .ok d) :
    (rootPhaseOf ctx params).2 =
      (getDescendantPaths (requestRootUrl ctx.platformUrls params)
        (ctx.extract d.rawHtml (requestRootUrl ctx.platformUrls params)
          (requestRootUrl ctx.platformUrls params)
          (requestIsPlatform ctx.platformUrls params)).internal).take MAX_KIN_LIMIT ∧
    requestRootUrl ctx.platformUrls params ∈ (rootPhaseOf ctx params).1.serviceCalls := by
  unfold rootPhaseOf
  rw [hdisp]
  have hinit : requestInitState ctx params = ({} : PipeState) := by
    unfold requestInitState
    rw [hmiss]
  rw [hinit]
  unfold processRootUrl
  dsimp only
  rw [if_neg (by simp [isUrlInVisitedSet])]
  unfold scrapeIfNotVisited
  rw [if_neg (by simp [List.contains])]
  rw [hok]
  dsimp only
  constructor
  · rfl
  · apply calls_mono_kinLinks
    dsimp only
    split <;> simp


/-- C3: for every tree-mode request with `target ≠ rootURL`, the request is
never in platform mode (platform mode forces `rootURL = target`, so the
spec's `ancestors[1]` dispatch branch is unreachable), the root phase is
dispatched on the root URL, and — when no cached tree exists and the root
scrape succeeds — the scrape service is actually invoked on the root URL and
the root phase submits up to `MAX_KIN_LIMIT` of the root's descendants drawn
from the internal links extracted from the root page. -/
theorem c3_root_phase_dispatch (ctx : RequestCtx) (params : LinksOptions)
    (hneq : requestTargetUrl params ≠ requestRootUrl ctx.platformUrls params) :
    requestIsPlatform ctx.platformUrls params = false ∧
    (processLinksRequestTree ctx params).rootDispatch =
      some (requestRootUrl ctx.platformUrls params) ∧
    (requestCacheRead ctx params = none →
      ∀ d, ctx.scrape (requestRootUrl ctx.platformUrls params) = Except.ok d →
        (processLinksRequestTree ctx params).rootPhaseKin =
          (getDescendantPaths (requestRootUrl ctx.platformUrls params)
            (ctx.extract d.rawHtml (requestRootUrl ctx.platformUrls params)
              (requestRootUrl ctx.platformUrls params)
              (requestIsPlatform ctx.platformUrls params)).internal).take MAX_KIN_LIMIT ∧
        requestRootUrl ctx.platformUrls params ∈
          (processLinksRequestTree ctx params).finalState.serviceCalls) := by
  have hplat : requestIsPlatform ctx.platformUrls params = false := by
    by_cases hb : requestIsPlatform ctx.platformUrls params = true
    · exfalso
      apply hneq
      have hp := hb
      unfold requestIsPlatform at hp
      unfold requestRootUrl deriveRootUrl
      rw [if_pos hp]
    · exact Bool.not_eq_true _ ▸ hb
  have hdisp : requestRootDispatch ctx params =
      some (requestRootUrl ctx.platformUrls params) := by
    unfold requestRootDispatch
    rw [if_pos hneq, hplat]
    simp
  refine ⟨hplat, ?_, ?_⟩
  · rw [plrt_rootDispatch]
    exact hdisp
  · intro hmiss d hok
    have h := rootPhase_scrape_ok ctx params d hmiss hdisp hok
    refine ⟨?_, ?_⟩
    · rw [plrt_rootPhaseKin]
      exact h.1
    · rw [plrt_finalState]
      apply calls_mono_treeTail
      unfold targetPhaseOf
      apply calls_mono_target
      unfold stAfterKinPhases
      apply calls_mono_kinLinks
      exact h.2

theorem c3_root_phase_dispatch_witness :
    requestTargetUrl { url := "https://example.com/a", subdomainAsRootUrl := some true } ≠
      requestRootUrl PLATFORM_URLS
        { url := "https://example.com/a", subdomainAsRootUrl := some true } ∧
    requestIsPlatform PLATFORM_URLS
      { url := "https://example.com/a", subdomainAsRootUrl := some true } = false ∧
    (processLinksRequestTree
        { scrape := fun _ => .ok { rawHtml := "<a href=x>" }
          extract := fun _ _ _ _ => { internal := ["https://example.com/a", "https://example.com/b"] } }
        { url := "https://example.com/a", subdomainAsRootUrl := some true }).rootDispatch =
      some "https://example.com" ∧
    (processLinksRequestTree
        { scrape := fun _ => .ok { rawHtml := "<a href=x>" }
          extract := fun _ _ _ _ => { internal := ["https://example.com/a", "https://example.com/b"] } }
        { url := "https://example.com/a", subdomainAsRootUrl := some true }).rootPhaseKin =
      ["https://example.com/a", "https://example.com/b"] ∧
    ("https://example.com" ∈
      (processLinksRequestTree
        { scrape := fun _ => .ok { rawHtml := "<a href=x>" }
          extract := fun _ _ _ _ => { internal := ["https://example.com/a", "https://example.com/b"] } }
        { url := "https://example.com/a", subdomainAsRootUrl := some true }).finalState.serviceCalls) := by
  have h := c3_root_phase_dispatch
    { scrape := fun _ => .ok { rawHtml := "<a href=x>" }
      extract := fun _ _ _ _ => { internal := ["https://example.com/a", "https://example.com/b"] } }
    { url := "https://example.com/a", subdomainAsRootUrl := some true }
    (by decide)
  have h3 := h.2.2 (by rfl) { rawHtml := "<a href=x>" } (by rfl)
  exact ⟨by decide, h.1, h.2.1, h3.1, h3.2⟩

/-- C3 counterexample: a non-platform request with `target ≠ rootURL` whose
cached tree already records the root URL as visited.  The cache-freshness
skip in `processRootUrl` then fires, the root phase ends without ever
invoking the scrape service on the root URL, and the request still succeeds
— refuting the unconditional "the orchestrator scrapes rootURL". -/
theorem c3_cached_root_not_scraped :
    requestTargetUrl { url := "https://example.com/a", subdomainAsRootUrl := some true } ≠
      requestRootUrl PLATFORM_URLS
        { url := "https://example.com/a", subdomainAsRootUrl := some true } ∧
    requestIsPlatform PLATFORM_URLS
      { url := "https://example.com/a", subdomainAsRootUrl := some true } = false ∧
    ((processLinksRequestTree
        { scrape := fun _ => .ok { rawHtml := "<a href=x>" }
          extract := fun _ _ _ _ => {}
          kvTree := fun k =>
            if k == "https://example.com" then
              some (.mk "https://example.com"
                { lastUpdated := "t0", lastVisited := some "t0" } [])
            else none }
        { url := "https://example.com/a", subdomainAsRootUrl := some true
          }).finalState.serviceCalls.contains "https://example.com") = false ∧
    (okOrNone (processLinksRequestTree
        { scrape := fun _ => .ok { rawHtml := "<a href=x>" }
          extract := fun _ _ _ _ => {}
          kvTree := fun k =>
            if k == "https://example.com" then
              some (.mk "https://example.com"
                { lastUpdated := "t0", lastVisited := some "t0" } [])
            else none }
        { url := "https://example.com/a", subdomainAsRootUrl := some true
          }).response).isSome = true := by
  refine ⟨by decide, by decide, by decide, by decide⟩


/-! ## Claim C4: the persisted tree and the enrichment pass -/

theorem treeAll_congr (p q : String → NodeInfo → Bool)
    (hpq : ∀ u i, p u i = q u i) : ∀ t, treeAll p t = treeAll q t := by
  intro t
  induction t using LinksTree.ind with
  | _ u i cs ih =>
    rw [treeAll, treeAll, hpq, forestAll_eq_all, forestAll_eq_all]
    congr 1
    induction cs with
    | nil => rfl
    | cons c rest ihl =>
      rw [List.all_cons, List.all_cons, ih c (List.mem_cons_self c rest),
        ihl (fun x hx => ih x (List.mem_cons_of_mem c hx))]

theorem all_filter (l : List α) (f q : α → Bool) (h : l.all q = true) :
    (l.filter f).all q = true := by
  rw [List.all_eq_true] at *
  intro x hx
  exact h x (List.mem_filter.mp hx).1

theorem insSorted_all (le : α → α → Bool) (q : α → Bool) (x : α) :
    ∀ l : List α, (insSorted le x l).all q = (q x && l.all q) := by
  intro l
  induction l with
  | nil => simp [insSorted]
  | cons b bs ih =>
    rw [insSorted]
    by_cases hle : le x b = true
    · rw [if_pos hle, List.all_cons]
    · rw [if_neg hle, List.all_cons, List.all_cons, ih]
      cases q b <;> cases q x <;> simp

theorem insSort_all (le : α → α → Bool) (q : α → Bool) :
    ∀ l : List α, (insSort le l).all q = l.all q := by
  intro l
  induction l with
  | nil => rfl
  | cons a as ih => rw [insSort, insSorted_all, ih, List.all_cons]

theorem orderForest_eq_map (ff : Bool) (ord : LinksOrder) :
    ∀ l, orderForest ff ord l = l.map (orderTree ff ord) := by
  intro l
  induction l with
  | nil => rfl
  | cons c cs ih => rw [orderForest, ih, List.map_cons]

theorem orderTree_all_imp (ff : Bool) (ord : LinksOrder) (p : String → NodeInfo → Bool) :
    ∀ t, treeAll p t = true → treeAll p (orderTree ff ord t) = true := by
  intro t
  induction t using LinksTree.ind with
  | _ u i cs ih =>
    intro h
    rw [treeAll, Bool.and_eq_true, forestAll_eq_all] at h
    obtain ⟨h1, h2⟩ := h
    have hcs1 : (orderForest ff ord cs).all (treeAll p) = true := by
      rw [orderForest_eq_map, List.all_eq_true]
      intro c hc
      obtain ⟨c0, hc0, hce⟩ := List.mem_map.mp hc
      subst hce
      exact ih c0 hc0 (List.all_eq_true.mp h2 c0 hc0)
    have hcs2 : (match ord with
        | LinksOrder.alphabetical => insSort nodeNameLE (orderForest ff ord cs)
        | LinksOrder.page => orderForest ff ord cs).all (treeAll p) = true := by
      cases ord with
      | page => exact hcs1
      | alphabetical =>
        rw [insSort_all]
        exact hcs1
    rw [orderTree.eq_def]
    dsimp only
    rw [treeAll, Bool.and_eq_true, forestAll_eq_all]
    refine ⟨h1, ?_⟩
    by_cases hff : ff = true
    · rw [if_pos hff, List.all_append, Bool.and_eq_true]
      exact ⟨all_filter _ _ _ hcs2, all_filter _ _ _ hcs2⟩
    · rw [if_neg hff]
      exact hcs2

theorem freshChain_noCH (now : String) :
    ∀ (rest : List String) (url seg : String),
      treeAll (fun _ i => i.cleanedHtml.isNone) (freshChain now url seg rest) = true := by
  intro rest
  induction rest with
  | nil => intro url seg; rfl
  | cons s r ih =>
    intro url seg
    rw [freshChain, treeAll, forestAll, forestAll, ih]
    rfl

theorem insertPath_noCH (now : String) :
    ∀ (segs : List String) (t : LinksTree),
      treeAll (fun _ i => i.cleanedHtml.isNone) t = true →
      treeAll (fun _ i => i.cleanedHtml.isNone) (insertPath now segs t) = true := by
  intro segs
  induction segs with
  | nil => intro t h; exact h
  | cons seg rest ih =>
    intro t h
    cases t with
    | mk u i cs =>
      rw [treeAll, Bool.and_eq_true, forestAll_eq_all, List.all_eq_true] at h
      obtain ⟨h1, h2⟩ := h
      rw [insertPath]
      by_cases hany : cs.any (fun c => c.url == u ++ "/" ++ seg) = true
      · rw [if_pos hany, treeAll, Bool.and_eq_true, forestAll_eq_all, List.all_eq_true]
        refine ⟨h1, ?_⟩
        intro c hc
        obtain ⟨c0, hc0, hce⟩ := List.mem_map.mp hc
        subst hce
        by_cases hcu : (c0.url == u ++ "/" ++ seg) = true
        · rw [if_pos hcu]
          exact ih c0 (h2 c0 hc0)
        · rw [if_neg hcu]
          exact h2 c0 hc0
      · rw [if_neg hany, treeAll, Bool.and_eq_true, forestAll_eq_all, List.all_append,
          Bool.and_eq_true]
        refine ⟨h1, List.all_eq_true.mpr h2, ?_⟩
        rw [List.all_cons, freshChain_noCH]
        rfl

theorem insertUrl_noCH (now rootUrl : String) (t : LinksTree) (url : String)
    (h : treeAll (fun _ i => i.cleanedHtml.isNone) t = true) :
    treeAll (fun _ i => i.cleanedHtml.isNone) (insertUrlIntoTree now rootUrl t url) = true := by
  unfold insertUrlIntoTree
  cases hr : relSegments rootUrl url with
  | some segs => exact insertPath_noCH now segs t h
  | none => exact h

theorem attachNode_cleanedHtml (maps : AttachMaps) (hm : maps.cleanedHtmlCache = none)
    (u : String) (i : NodeInfo) : (attachNode maps u i).cleanedHtml = i.cleanedHtml := by
  simp [attachNode, optGet, hm]

theorem treeMap_attach_noCH (maps : AttachMaps) (hm : maps.cleanedHtmlCache = none)
    (t : LinksTree) :
    treeAll (fun _ i => i.cleanedHtml.isNone) (treeMap (attachNode maps) t) =
      treeAll (fun _ i => i.cleanedHtml.isNone) t := by
  rw [treeAll_treeMap]
  exact treeAll_congr _ _ (fun u i => by rw [attachNode_cleanedHtml maps hm]) t

theorem setRootMeta_noCH (rootUrl : String) (t : LinksTree)
    (h : treeAll (fun _ i => i.cleanedHtml.isNone) t = true) :
    treeAll (fun _ i => i.cleanedHtml.isNone) (setRootMeta rootUrl t) = true := by
  cases t with
  | mk u i cs =>
    rw [setRootMeta]
    rw [treeAll] at h ⊢
    exact h

theorem mergeNewLinks_noCH (c : TreeBuildCtx) (hm : c.maps.cleanedHtmlCache = none)
    (t : LinksTree) (newLinks : List String)
    (h : treeAll (fun _ i => i.cleanedHtml.isNone) t = true) :
    treeAll (fun _ i => i.cleanedHtml.isNone) (mergeNewLinksIntoTree c t newLinks) = true := by
  unfold mergeNewLinksIntoTree
  apply setRootMeta_noCH
  apply orderTree_all_imp
  rw [treeMap_attach_noCH c.maps hm]
  exact foldl_preserves
    (fun s => treeAll (fun _ i => i.cleanedHtml.isNone) s = true)
    (insertUrlIntoTree c.now c.rootUrl)
    (fun s a hs => insertUrl_noCH c.now c.rootUrl s a hs) newLinks t h

theorem buildLinksTree_noCH (c : TreeBuildCtx) (hm : c.maps.cleanedHtmlCache = none)
    (links : List String) :
    treeAll (fun _ i => i.cleanedHtml.isNone) (buildLinksTree c links) = true := by
  unfold buildLinksTree
  exact mergeNewLinks_noCH c hm _ _ rfl


theorem buildCtx_noCHmap (ctx : RequestCtx) (params : LinksOptions) :
    (buildCtxOf ctx params).maps.cleanedHtmlCache = none := rfl

theorem treeTail_kvPut_cases (ctx : RequestCtx) (params : LinksOptions) :
    (treeTailOf ctx params).kvPut = none ∨
    (treeTailOf ctx params).kvPut =
      some (rootKeyForCache ctx.platformUrls params, finalTree0Of ctx params) := by
  unfold treeTailOf
  dsimp only
  cases htp : (targetPhaseOf ctx params).2 with
  | error e =>
    dsimp only
    exact Or.inl rfl
  | ok td =>
    dsimp only
    by_cases hcn : cacheOn params = true
    · rw [if_pos hcn]
      exact Or.inr rfl
    · rw [if_neg hcn]
      exact Or.inl rfl

theorem finalTree0_noCH (ctx : RequestCtx) (params : LinksOptions)
    (hcache : ∀ t0, requestCacheRead ctx params = some t0 →
      treeAll (fun _ i => i.cleanedHtml.isNone) t0 = true) :
    treeAll (fun _ i => i.cleanedHtml.isNone) (finalTree0Of ctx params) = true := by
  unfold finalTree0Of
  dsimp only
  cases hcr : requestCacheRead ctx params with
  | none =>
    dsimp only
    exact buildLinksTree_noCH _ (buildCtx_noCHmap ctx params) _
  | some t0 =>
    have h0 := hcache t0 hcr
    by_cases hemp : (stAfterDescendants ctx params).linksSets.internal.isEmpty = true
    · rw [if_pos hemp]
      dsimp only
      exact buildLinksTree_noCH _ (buildCtx_noCHmap ctx params) _
    · rw [if_neg hemp]
      dsimp only
      rw [if_pos (show (some t0 : Option LinksTree).isSome = true from rfl)]
      exact mergeNewLinks_noCH _ (buildCtx_noCHmap ctx params) t0 _ h0

/-- C4: whenever every node of the cached tree the request read (if any)
carries no `cleanedHtml`, the tree written back to the KV cache carries no
`cleanedHtml` on any node either: the pre-put build runs with no
cleaned-HTML map, and the cleaned-HTML merge happens only on the returned
tree after the put. -/
theorem c4_stored_tree_no_cleaned_html (ctx : RequestCtx) (params : LinksOptions)
    (hcache : ∀ t0, requestCacheRead ctx params = some t0 →
      treeAll (fun _ i => i.cleanedHtml.isNone) t0 = true) :
    ∀ k t, (processLinksRequestTree ctx params).kvPut = some (k, t) →
      treeAll (fun _ i => i.cleanedHtml.isNone) t = true := by
  intro k t hput
  rw [plrt_kvPut] at hput
  rcases treeTail_kvPut_cases ctx params with hc | hc
  · rw [hc] at hput
    exact absurd hput (by simp)
  · rw [hc] at hput
    have h2 : finalTree0Of ctx params = t :=
      congrArg Prod.snd (Option.some.inj hput)
    subst h2
    exact finalTree0_noCH ctx params hcache


theorem c4_stored_tree_no_cleaned_html_witness :
    ((processLinksRequestTree
        { scrape := fun _ => .ok { rawHtml := "<x>", cleanedHtml := some "<div>c</div>" }
          extract := fun _ _ _ _ => { internal := ["https://example.com/a"] } }
        { url := "https://example.com", cleanedHtml := some true }).kvPut.map
      (fun pr => treeAll (fun _ i => i.cleanedHtml.isNone) pr.2)) = some true ∧
    (match okOrNone (processLinksRequestTree
        { scrape := fun _ => .ok { rawHtml := "<x>", cleanedHtml := some "<div>c</div>" }
          extract := fun _ _ _ _ => { internal := ["https://example.com/a"] } }
        { url := "https://example.com", cleanedHtml := some true }).response with
      | some (LinksSuccessResponse.withTree r) =>
        treeAll (fun _ i => i.cleanedHtml.isNone) r.tree
      | _ => true) = false := by
  constructor
  · have hmain := c4_stored_tree_no_cleaned_html
      { scrape := fun _ => .ok { rawHtml := "<x>", cleanedHtml := some "<div>c</div>" }
        extract := fun _ _ _ _ => { internal := ["https://example.com/a"] } }
      { url := "https://example.com", cleanedHtml := some true }
      (by
        intro t0 h
        rw [show requestCacheRead
            { scrape := fun _ => .ok { rawHtml := "<x>", cleanedHtml := some "<div>c</div>" }
              extract := fun _ _ _ _ => { internal := ["https://example.com/a"] } }
            { url := "https://example.com", cleanedHtml := some true } =
          (none : Option LinksTree) from rfl] at h
        exact Option.noConfusion h)
    rcases treeTail_kvPut_cases
      { scrape := fun _ => .ok { rawHtml := "<x>", cleanedHtml := some "<div>c</div>" }
        extract := fun _ _ _ _ => { internal := ["https://example.com/a"] } }
      { url := "https://example.com", cleanedHtml := some true } with hc | hc
    · have hs : (treeTailOf
          { scrape := fun _ => .ok { rawHtml := "<x>", cleanedHtml := some "<div>c</div>" }
            extract := fun _ _ _ _ => { internal := ["https://example.com/a"] } }
          { url := "https://example.com", cleanedHtml := some true }).kvPut.isSome = true := by
        decide
      rw [hc] at hs
      exact absurd hs (by decide)
    · rw [plrt_kvPut, hc]
      have ht := hmain _ _ (by rw [plrt_kvPut, hc])
      rw [show (some (rootKeyForCache
            ({ scrape := fun _ => .ok { rawHtml := "<x>", cleanedHtml := some "<div>c</div>" }
               extract := fun _ _ _ _ =>
                 { internal := ["https://example.com/a"] } } : RequestCtx).platformUrls
            { url := "https://example.com", cleanedHtml := some true },
          finalTree0Of
            { scrape := fun _ => .ok { rawHtml := "<x>", cleanedHtml := some "<div>c</div>" }
              extract := fun _ _ _ _ => { internal := ["https://example.com/a"] } }
            { url := "https://example.com", cleanedHtml := some true })).map
          (fun pr => treeAll (fun _ i => i.cleanedHtml.isNone) pr.2) =
        some (treeAll (fun _ i => i.cleanedHtml.isNone)
          (finalTree0Of
            { scrape := fun _ => .ok { rawHtml := "<x>", cleanedHtml := some "<div>c</div>" }
              extract := fun _ _ _ _ => { internal := ["https://example.com/a"] } }
            { url := "https://example.com", cleanedHtml := some true })) from rfl]
      rw [ht]
  · decide

/-- C4 counterexample: with `extractedLinks := true` and a cache miss, the
target node of the tree written to the KV cache carries `extractedLinks` —
the pre-put build receives the extracted-links map, so extracted links are
persisted, refuting "the cached tree never contains extractedLinks". -/
theorem c4_extracted_links_persisted :
    ((processLinksRequestTree
        { scrape := fun _ => .ok { rawHtml := "<x>" }
          extract := fun _ _ _ _ => { internal := ["https://example.com/a"] } }
        { url := "https://example.com", extractedLinks := some true }).kvPut.map
      (fun pr => treeAll (fun _ i => i.extractedLinks.isNone) pr.2)) = some false := by
  decide

end Deepcrawl
